import Mathlib

/-!
Verification development for the GDL-90 stream decoder
(`src/gdl90/lib/decoder.py`) and the pub/sub return handler
(`src/gdl90/gdl90.py`).

The decoder is embedded shallowly: the mutable `Decoder` object becomes an
explicit state record, Python `bytearray`s become `List Nat`, and the three
`while True` loops (`_parseMessages`, `_resynchronizeParser`, `_unescape`)
become well-founded recursive functions whose termination argument mirrors
the fact that every continuing iteration strictly shrinks the buffer.
Statistics updates are modelled on an association list that mirrors the
Python dict `self.stats` with keys inserted at the end exactly when Python
would create them.  `lib.fcs.crcCheck` and `messages.messageToObject` are
imported by the decoder from modules that are not part of the sources, so
they are kept abstract in an `Env` record (modelled from the spec: the CRC
validator is a boolean check of body against trailing checksum, the message
dispatcher returns an optional decoded message).
-/

namespace GDL90

/-- Index of the first occurrence of a byte in a list, mirroring Python
`bytearray.index` (which raises when absent; absence is `none` here and the
call sites model the corresponding `try`/`except`). -/
def byteIndex (x : Nat) : List Nat → Option Nat
  | [] => none
  | b :: bs => if b = x then some 0 else (byteIndex x bs).map (· + 1)

theorem byteIndex_lt_length {x : Nat} :
    ∀ {l : List Nat} {i : Nat}, byteIndex x l = some i → i < l.length := by
  intro l
  induction l with
  | nil => intro i h; simp [byteIndex] at h
  | cons b bs ih =>
    intro i h
    simp only [byteIndex] at h
    by_cases hb : b = x
    · rw [if_pos hb] at h
      injection h with h
      subst h
      simp only [List.length_cons]
      omega
    · rw [if_neg hb] at h
      cases hj : byteIndex x bs with
      | none => rw [hj] at h; simp at h
      | some j =>
        rw [hj] at h
        simp at h
        have := ih hj
        simp only [List.length_cons]
        omega

theorem byteIndex_none_of_not_mem {x : Nat} :
    ∀ {l : List Nat}, x ∉ l → byteIndex x l = none := by
  intro l
  induction l with
  | nil => intro _; rfl
  | cons b bs ih =>
    intro h
    have hb : ¬ b = x := fun hbx => h (hbx ▸ List.mem_cons_self b bs)
    have hbs : x ∉ bs := fun hm => h (List.mem_cons_of_mem b hm)
    simp [byteIndex, hb, ih hbs]

theorem byteIndex_append_some {x : Nat} :
    ∀ {l : List Nat} {i : Nat} (r : List Nat),
      byteIndex x l = some i → byteIndex x (l ++ r) = some i := by
  intro l
  induction l with
  | nil => intro i r h; simp [byteIndex] at h
  | cons b bs ih =>
    intro i r h
    by_cases hb : b = x
    · simp [byteIndex, hb] at h
      simp [byteIndex, hb, ← h]
    · simp [byteIndex, hb] at h ⊢
      obtain ⟨j, hj, hji⟩ := h
      exact ⟨j, ih r hj, hji⟩

theorem byteIndex_append_none {x : Nat} :
    ∀ {l : List Nat} (r : List Nat),
      byteIndex x l = none →
      byteIndex x (l ++ r) = (byteIndex x r).map (· + l.length) := by
  intro l
  induction l with
  | nil => intro r _; simp
  | cons b bs ih =>
    intro r h
    by_cases hb : b = x
    · simp [byteIndex, hb] at h
    · simp [byteIndex, hb] at h
      simp [byteIndex, hb, ih r h]

theorem byteIndex_append_self {x : Nat} {l : List Nat} (r : List Nat)
    (h : x ∉ l) : byteIndex x (l ++ x :: r) = some l.length := by
  rw [byteIndex_append_none (x :: r) (byteIndex_none_of_not_mem h)]
  simp [byteIndex]

theorem byteIndex_drop_cons {x : Nat} :
    ∀ {l : List Nat} {i : Nat}, byteIndex x l = some i →
      l.drop i = x :: l.drop (i + 1) := by
  intro l
  induction l with
  | nil => intro i h; simp [byteIndex] at h
  | cons b bs ih =>
    intro i h
    by_cases hb : b = x
    · simp [byteIndex, hb] at h
      simp [← h, hb]
    · simp [byteIndex, hb] at h
      obtain ⟨j, hj, hji⟩ := h
      subst hji
      simpa using ih hj

theorem take_append_le {α : Type} :
    ∀ {l : List α} (r : List α) {i : Nat}, i ≤ l.length →
      (l ++ r).take i = l.take i := by
  intro l
  induction l with
  | nil =>
    intro r i h
    have hi : i = 0 := by simpa using h
    subst hi
    simp
  | cons a as ih =>
    intro r i h
    cases i with
    | zero => simp
    | succ j =>
      simp only [List.cons_append, List.take_succ_cons]
      rw [ih r (by simpa using h)]

theorem drop_append_le {α : Type} :
    ∀ {l : List α} (r : List α) {i : Nat}, i ≤ l.length →
      (l ++ r).drop i = l.drop i ++ r := by
  intro l
  induction l with
  | nil =>
    intro r i h
    have hi : i = 0 := by simpa using h
    subst hi
    simp
  | cons a as ih =>
    intro r i h
    cases i with
    | zero => simp
    | succ j =>
      simp only [List.cons_append, List.drop_succ_cons]
      exact ih r (by simpa using h)

/-- `Decoder._unescape` inner loop.  The Python loop keeps an output
`bytearray msgNew`, searches the remaining input for the escape byte 0x7d,
copies everything before it, appends the following byte xor 0x20 and removes
the consumed prefix.  A dangling trailing escape raises `IndexError` at
`msg[i+1]`, which the shared `except` handler treats like exhaustion: it
appends the *entire current remainder* (whose prefix was already copied) to
the output, so the pre-escape bytes are duplicated and the escape byte is
kept.  The Python `foundEscapeChar` flag only chooses between returning
`msgNew` and the untouched `msg`; both equal `acc ++ msg` here. -/
def unescapeLoop (acc : List Nat) (msg : List Nat) : List Nat :=
  match h : byteIndex 0x7d msg with
  | none => acc ++ msg
  | some i =>
    match msg.get? (i + 1) with
    | some b => unescapeLoop (acc ++ msg.take i ++ [b ^^^ 0x20]) (msg.drop (i + 2))
    | none => acc ++ msg.take i ++ msg
termination_by msg.length
decreasing_by
  have := byteIndex_lt_length h
  simp only [List.length_drop]
  omega

/-- `Decoder._unescape`: reverse the GDL-90 byte stuffing. -/
def unescape (msg : List Nat) : List Nat := unescapeLoop [] msg

/-- `Decoder._resynchronizeParser` inner loop, acting on the buffer alone.
Returns the synchronized flag and the new buffer.  The caller accounts for
the single `stats[resync] += 1` per invocation.  When no delimiter exists
the Python loop blanks the buffer and the next iteration returns `False`;
that composite step is the `none` branch here. -/
def resyncLoop : List Nat → Bool × List Nat
  | [] => (false, [])
  | [b] => (false, [b])
  | b0 :: b1 :: rest =>
    if b0 = 0x7e then
      if b1 = 0x7e then (true, b1 :: rest) else (true, b0 :: b1 :: rest)
    else
      match byteIndex 0x7e (b1 :: rest) with
      | some j => resyncLoop ((b1 :: rest).drop j)
      | none => (false, [])
termination_by l => l.length
decreasing_by
  simp only [List.length_drop, List.length_cons]
  omega

theorem resyncLoop_length_le : ∀ (l : List Nat), (resyncLoop l).2.length ≤ l.length := by
  intro l
  induction l using resyncLoop.induct with
  | case1 => simp [resyncLoop]
  | case2 b => simp [resyncLoop]
  | case3 rest => simp [resyncLoop]
  | case4 b1 rest h1 => simp [resyncLoop, h1]
  | case5 b0 b1 rest h0 j hj ih =>
    rw [resyncLoop, if_neg h0, hj]
    calc (resyncLoop ((b1 :: rest).drop j)).2.length
        ≤ ((b1 :: rest).drop j).length := ih
      _ ≤ (b0 :: b1 :: rest).length := by
          simp only [List.length_drop, List.length_cons]
          omega
  | case6 b0 b1 rest h0 hj => simp [resyncLoop, h0, hj]

/-- Message-type statistics, mirroring the Python dict `self.stats[msgs]`:
an association list of entries `(typeId, successCount, crcFailureCount)` in
dict insertion order (new keys are appended at the end). -/
abbrev Stats := List (Nat × Nat × Nat)

def statsMem (m : Stats) (k : Nat) : Bool := m.any (fun e => e.1 = k)

/-- The `if not msg[0] in self.stats[msgs].keys()` zero-initialisation. -/
def statsEnsure (m : Stats) (k : Nat) : Stats :=
  if statsMem m k then m else m ++ [(k, 0, 0)]

/-- `self.stats[msgs][k][0] += 1` on the (unique) entry for key `k`. -/
def statsIncSucc : Stats → Nat → Stats
  | [], _ => []
  | e :: r, k => if e.1 = k then (e.1, e.2.1 + 1, e.2.2) :: r else e :: statsIncSucc r k

/-- `self.stats[msgs][k][1] += 1` on the (unique) entry for key `k`. -/
def statsIncFail : Stats → Nat → Stats
  | [], _ => []
  | e :: r, k => if e.1 = k then (e.1, e.2.1, e.2.2 + 1) :: r else e :: statsIncFail r k

/-- Success counter read-out for a type id, 0 when no entry exists yet. -/
def succCount (m : Stats) (k : Nat) : Nat :=
  ((m.find? (fun e => e.1 = k)).map (fun e => e.2.1)).getD 0

/-- CRC-failure counter read-out for a type id, 0 when no entry exists yet. -/
def failCount (m : Stats) (k : Nat) : Nat :=
  ((m.find? (fun e => e.1 = k)).map (fun e => e.2.2)).getD 0

/-- Modelled from the spec: the two collaborators the decoder imports from
modules absent from the sources.  `crcCheck` is `lib.fcs.crcCheck` (the
16-bit GDL-90 frame check of a message body against its trailing 2-byte
checksum) and `messageToObject` is `messages.messageToObject` (the message
dispatcher mapping a validated body to an optional decoded message; the
Python falsy/None result is `none`).  The decoder treats both as total
black boxes, so the development is parametric in them. -/
structure Env (μ : Type) where
  crcCheck : List Nat → List Nat → Bool
  messageToObject : List Nat → Option μ

/-- The mutable decoder state that the claims are about: the unconsumed
input buffer, the synchronized flag and the per-type statistics.  The
`resync` counter is accounted separately as a per-call increment (the
functions below return how many times `_resynchronizeParser` ran), and the
fields that never feed back into parsing (print formatting, plotflight
altitude tracking, heartbeat wall-clock tracking) are omitted. -/
structure DState where
  inputBuffer : List Nat
  parserSynchronized : Bool
  msgs : Stats
deriving Repr, DecidableEq

/-- `Decoder.__init__`: empty buffer, parser not synchronized, stats
seeded with the type-id-0 entry `{0 : [0, 0]}`. -/
def initState : DState := ⟨[], false, [(0, 0, 0)]⟩

/-- `Decoder._decodeMessage` acting on the statistics.  Returns the new
statistics and the message passed to `return_handler` (if any): unescape,
drop frames whose unescaped length is below 5 with no statistics update,
split body/checksum, zero-initialise the type-id entry, then count either
a CRC failure (no notification) or a success followed by dispatch. -/
def decodeMessage {μ : Type} (env : Env μ) (msgs : Stats) (escaped : List Nat) :
    Stats × Option μ :=
  let rawMsg := unescape escaped
  if rawMsg.length < 5 then (msgs, none)
  else
    let msg := rawMsg.take (rawMsg.length - 2)
    let crc := rawMsg.drop (rawMsg.length - 2)
    let t := msg.headD 0
    if env.crcCheck msg crc = false then (statsIncFail (statsEnsure msgs t) t, none)
    else
      match env.messageToObject msg with
      | none => (statsIncSucc (statsEnsure msgs t) t, none)
      | some m => (statsIncSucc (statsEnsure msgs t) t, some m)

/-- Result of one iteration of the `while True` loop of
`Decoder._parseMessages`: either the loop returns, or it extracted one
frame (with the message that was handed to the sink, if any) and loops. -/
inductive StepRes (μ : Type) where
  | stop (st : DState)
  | frame (st : DState) (m : Option μ)

/-- The tail of a `_parseMessages` iteration once the head delimiter is
settled: look for the closing 0x7e from offset 1 (return on `ValueError`),
slice the frame out without its markers, and decode it. -/
def extractPhase {μ : Type} (env : Env μ) (st : DState) : StepRes μ :=
  match byteIndex 0x7e (st.inputBuffer.drop 1) with
  | none => StepRes.stop st
  | some j =>
    StepRes.frame
      { st with inputBuffer := st.inputBuffer.drop (j + 2),
                msgs := (decodeMessage env st.msgs ((st.inputBuffer.drop 1).take j)).1 }
      (decodeMessage env st.msgs ((st.inputBuffer.drop 1).take j)).2

/-- One full iteration of the `_parseMessages` loop, also reporting how
many times `_resynchronizeParser` was invoked (0 or 1): return below the
two-byte low watermark; if the head byte is not the delimiter run the
resynchronizer and return when it empties the buffer, otherwise fall
through (as the Python does, without re-checking length or head) to the
end-marker search and extraction. -/
def loopStep {μ : Type} (env : Env μ) (st : DState) : StepRes μ × Nat :=
  if st.inputBuffer.length < 2 then (StepRes.stop st, 0)
  else if st.inputBuffer.headD 0 = 0x7e then (extractPhase env st, 0)
  else if (resyncLoop st.inputBuffer).1 then
    (extractPhase env
      { st with inputBuffer := (resyncLoop st.inputBuffer).2, parserSynchronized := true }, 1)
  else
    (StepRes.stop
      { st with inputBuffer := (resyncLoop st.inputBuffer).2, parserSynchronized := false }, 1)

theorem loopStep_frame_length {μ : Type} {env : Env μ} {st s : DState} {m : Option μ}
    {rs : Nat} (h : loopStep env st = (StepRes.frame s m, rs)) :
    s.inputBuffer.length < st.inputBuffer.length := by
  rw [loopStep] at h
  by_cases hlen : st.inputBuffer.length < 2
  · rw [if_pos hlen] at h
    simp at h
  · rw [if_neg hlen] at h
    by_cases hhd : st.inputBuffer.headD 0 = 0x7e
    · rw [if_pos hhd] at h
      rw [extractPhase] at h
      cases hj : byteIndex 0x7e (st.inputBuffer.drop 1) with
      | none => rw [hj] at h; simp at h
      | some j =>
        rw [hj] at h
        simp at h
        have hlt := byteIndex_lt_length hj
        simp only [List.length_drop] at hlt
        obtain ⟨⟨hs, _⟩, _⟩ := h
        rw [← hs]
        simp only [List.length_drop]
        omega
    · rw [if_neg hhd] at h
      by_cases hok : (resyncLoop st.inputBuffer).1 = true
      · rw [if_pos hok] at h
        rw [extractPhase] at h
        cases hj : byteIndex 0x7e ((resyncLoop st.inputBuffer).2.drop 1) with
        | none => rw [hj] at h; simp at h
        | some j =>
          rw [hj] at h
          simp at h
          have hlt := byteIndex_lt_length hj
          simp only [List.length_drop] at hlt
          have hrl := resyncLoop_length_le st.inputBuffer
          obtain ⟨⟨hs, _⟩, _⟩ := h
          rw [← hs]
          simp only [List.length_drop]
          omega
      · rw [if_neg hok] at h
        simp at h

/-- The `while True` loop of `Decoder._parseMessages`: iterate `loopStep`
until it stops, returning the final state, the number of resynchronizer
invocations and the messages handed to the Notification Sink in order. -/
def parseLoop {μ : Type} (env : Env μ) (st : DState) : DState × Nat × List μ :=
  match h : loopStep env st with
  | (StepRes.stop s, rs) => (s, rs, [])
  | (StepRes.frame s m, rs) =>
    let r := parseLoop env s
    (r.1, rs + r.2.1, m.toList ++ r.2.2)
termination_by st.inputBuffer.length
decreasing_by
  exact loopStep_frame_length h

/-- Account one resynchronizer invocation on top of a parse-loop result. -/
def afterResync {μ : Type} (p : DState × Nat × List μ) : DState × Nat × List μ :=
  (p.1, 1 + p.2.1, p.2.2)

/-- `Decoder._parseMessages`: if the parser is not synchronized, run the
resynchronizer first (one more resync count) and return when it fails;
then run the extraction loop. -/
def parseMessages {μ : Type} (env : Env μ) (st : DState) : DState × Nat × List μ :=
  if st.parserSynchronized then parseLoop env st
  else if (resyncLoop st.inputBuffer).1 then
    afterResync (parseLoop env
      { st with inputBuffer := (resyncLoop st.inputBuffer).2, parserSynchronized := true })
  else
    ({ st with inputBuffer := (resyncLoop st.inputBuffer).2, parserSynchronized := false }, 1, [])

/-- `Decoder.addBytes`: append the chunk to the input buffer and parse. -/
def addBytes {μ : Type} (env : Env μ) (st : DState) (data : List Nat) :
    DState × Nat × List μ :=
  parseMessages env { st with inputBuffer := st.inputBuffer ++ data }

/-- A sequence of `addBytes` calls, concatenating the notifications and
accumulating the resynchronizer invocation counts. -/
def feedAll {μ : Type} (env : Env μ) (st : DState) : List (List Nat) → DState × Nat × List μ
  | [] => (st, 0, [])
  | c :: cs =>
    let p := addBytes env st c
    let q := feedAll env p.1 cs
    (q.1, p.2.1 + q.2.1, p.2.2 ++ q.2.2)

section StepLemmas

variable {μ : Type} {env : Env μ}

theorem parseLoop_stop_eq {st s : DState} {rs : Nat}
    (h : loopStep env st = (StepRes.stop s, rs)) : parseLoop env st = (s, rs, []) := by
  rw [parseLoop, h]

theorem parseLoop_frame_eq {st s : DState} {m : Option μ} {rs : Nat}
    (h : loopStep env st = (StepRes.frame s m, rs)) :
    parseLoop env st =
      ((parseLoop env s).1, rs + (parseLoop env s).2.1, m.toList ++ (parseLoop env s).2.2) := by
  rw [parseLoop, h]

theorem loopStep_short {st : DState} (h : st.inputBuffer.length < 2) :
    loopStep env st = (StepRes.stop st, 0) := by
  rw [loopStep, if_pos h]

theorem loopStep_head {st : DState} (h2 : ¬ st.inputBuffer.length < 2)
    (hh : st.inputBuffer.headD 0 = 0x7e) :
    loopStep env st = (extractPhase env st, 0) := by
  rw [loopStep, if_neg h2, if_pos hh]

theorem loopStep_resync_ok {st : DState} (h2 : ¬ st.inputBuffer.length < 2)
    (hh : ¬ st.inputBuffer.headD 0 = 0x7e) (hok : (resyncLoop st.inputBuffer).1 = true) :
    loopStep env st =
      (extractPhase env
        { st with inputBuffer := (resyncLoop st.inputBuffer).2, parserSynchronized := true },
       1) := by
  rw [loopStep, if_neg h2, if_neg hh, if_pos hok]

theorem loopStep_resync_fail {st : DState} (h2 : ¬ st.inputBuffer.length < 2)
    (hh : ¬ st.inputBuffer.headD 0 = 0x7e) (hok : (resyncLoop st.inputBuffer).1 = false) :
    loopStep env st =
      (StepRes.stop
        { st with inputBuffer := (resyncLoop st.inputBuffer).2, parserSynchronized := false },
       1) := by
  rw [loopStep, if_neg h2, if_neg hh, if_neg (by simp [hok])]

theorem extractPhase_none {st : DState} (h : byteIndex 0x7e (st.inputBuffer.drop 1) = none) :
    extractPhase env st = StepRes.stop st := by
  rw [extractPhase, h]

theorem extractPhase_some {st : DState} {j : Nat}
    (h : byteIndex 0x7e (st.inputBuffer.drop 1) = some j) :
    extractPhase env st =
      StepRes.frame
        { st with inputBuffer := st.inputBuffer.drop (j + 2),
                  msgs := (decodeMessage env st.msgs ((st.inputBuffer.drop 1).take j)).1 }
        (decodeMessage env st.msgs ((st.inputBuffer.drop 1).take j)).2 := by
  rw [extractPhase, h]

/-- The parse loop leaves a buffer below the low watermark untouched. -/
theorem parseLoop_short {st : DState} (h : st.inputBuffer.length < 2) :
    parseLoop env st = (st, 0, []) :=
  parseLoop_stop_eq (loopStep_short h)

/-- Extracting one leading well-formed frame: a buffer that starts with a
delimiter, a delimiter-free body and the closing delimiter decodes the body
and continues on the rest. -/
theorem loopStep_cons_frame {body rest : List Nat} {msgs : Stats} {sync : Bool}
    (hb : 0x7e ∉ body) :
    loopStep env ⟨0x7e :: (body ++ 0x7e :: rest), sync, msgs⟩ =
      (StepRes.frame ⟨rest, sync, (decodeMessage env msgs body).1⟩
        (decodeMessage env msgs body).2, 0) := by
  have hj : byteIndex 0x7e (((0x7e :: (body ++ 0x7e :: rest)) : List Nat).drop 1) =
      some body.length := by
    simpa using byteIndex_append_self rest hb
  have h2 : ¬ ((0x7e :: (body ++ 0x7e :: rest)) : List Nat).length < 2 := by
    simp
    omega
  have hh : ((0x7e :: (body ++ 0x7e :: rest)) : List Nat).headD 0 = 0x7e := rfl
  rw [loopStep_head h2 hh, extractPhase_some hj]
  have hmsg : (((0x7e :: (body ++ 0x7e :: rest)) : List Nat).drop 1).take body.length = body := by
    simpa using List.take_left body (0x7e :: rest)
  have hbuf : ((0x7e :: (body ++ 0x7e :: rest)) : List Nat).drop (body.length + 2) = rest := by
    have h1 : ((body ++ [0x7e]) ++ rest).drop (body.length + 1) = rest :=
      List.drop_left' (by simp)
    have h0 : (0x7e :: (body ++ 0x7e :: rest) : List Nat).drop (body.length + 2) =
        (body ++ 0x7e :: rest).drop (body.length + 1) := rfl
    rw [h0]
    simpa [List.append_assoc] using h1
  rw [hmsg, hbuf]

/-- Extracting one leading well-formed frame: a buffer that starts with a
delimiter, a delimiter-free body and the closing delimiter decodes the body
and continues on the rest. -/
theorem parseLoop_cons_frame {body rest : List Nat} {msgs : Stats}
    (hb : 0x7e ∉ body) :
    parseLoop env ⟨0x7e :: (body ++ 0x7e :: rest), true, msgs⟩ =
      ((parseLoop env ⟨rest, true, (decodeMessage env msgs body).1⟩).1,
       (parseLoop env ⟨rest, true, (decodeMessage env msgs body).1⟩).2.1,
       (decodeMessage env msgs body).2.toList ++
         (parseLoop env ⟨rest, true, (decodeMessage env msgs body).1⟩).2.2) := by
  rw [parseLoop_frame_eq (loopStep_cons_frame hb)]
  simp

end StepLemmas

/-- The buffer from its first delimiter onwards (empty when no delimiter
is present): everything before it is junk that only the resynchronizer can
consume, so this tail determines the resynchronizer's decision. -/
def tailFrom7e (l : List Nat) : List Nat :=
  match byteIndex 0x7e l with
  | some i => l.drop i
  | none => []

/-- Drop the stale end-marker of the previous frame when two delimiters
are adjacent at the head, as resynchronization step 2 does. -/
def dropStale : List Nat → List Nat
  | a :: b :: r => if b = 0x7e then b :: r else a :: b :: r
  | t => t

theorem tailFrom7e_of_some {l : List Nat} {i : Nat} (h : byteIndex 0x7e l = some i) :
    tailFrom7e l = l.drop i := by
  rw [tailFrom7e, h]

theorem tailFrom7e_of_none {l : List Nat} (h : byteIndex 0x7e l = none) :
    tailFrom7e l = [] := by
  rw [tailFrom7e, h]

theorem tailFrom7e_cons_7e (l : List Nat) : tailFrom7e (0x7e :: l) = 0x7e :: l := by
  simp [tailFrom7e, byteIndex]

theorem tailFrom7e_cons_ne {b : Nat} (l : List Nat) (hb : ¬ b = 0x7e) :
    tailFrom7e (b :: l) = tailFrom7e l := by
  rw [tailFrom7e, tailFrom7e, byteIndex, if_neg hb]
  cases h : byteIndex 0x7e l with
  | none => simp
  | some i => simp

theorem tailFrom7e_append_of_some {l : List Nat} {i : Nat} (r : List Nat)
    (h : byteIndex 0x7e l = some i) :
    tailFrom7e (l ++ r) = tailFrom7e l ++ r := by
  rw [tailFrom7e_of_some (byteIndex_append_some r h), tailFrom7e_of_some h]
  exact drop_append_le r (Nat.le_of_lt (byteIndex_lt_length h))

theorem tailFrom7e_append_of_none {l : List Nat} (r : List Nat)
    (h : byteIndex 0x7e l = none) :
    tailFrom7e (l ++ r) = tailFrom7e r := by
  rw [tailFrom7e]
  rw [byteIndex_append_none r h]
  cases hr : byteIndex 0x7e r with
  | none => rw [tailFrom7e_of_none hr]; simp
  | some k =>
    rw [tailFrom7e_of_some hr]
    simp only [Option.map_some']
    have hdrop : (l ++ r).drop (k + l.length) = r.drop k := by
      rw [Nat.add_comm, ← List.drop_drop, List.drop_left]
    exact hdrop

theorem tailFrom7e_cons_drop {l : List Nat} {i : Nat} (h : byteIndex 0x7e l = some i) :
    l.drop i = 0x7e :: l.drop (i + 1) := byteIndex_drop_cons h

theorem tailFrom7e_ne_nil_of_some {l : List Nat} {i : Nat} (h : byteIndex 0x7e l = some i) :
    tailFrom7e l ≠ [] := by
  rw [tailFrom7e_of_some h, tailFrom7e_cons_drop h]
  simp

/-- Equal delimiter tails stay equal after appending the same suffix. -/
theorem tailFrom7e_append_congr {x y : List Nat} (h : tailFrom7e x = tailFrom7e y)
    (r : List Nat) : tailFrom7e (x ++ r) = tailFrom7e (y ++ r) := by
  cases hx : byteIndex 0x7e x with
  | none =>
    cases hy : byteIndex 0x7e y with
    | none => rw [tailFrom7e_append_of_none r hx, tailFrom7e_append_of_none r hy]
    | some j =>
      exfalso
      exact tailFrom7e_ne_nil_of_some hy (by rw [← h]; exact tailFrom7e_of_none hx)
  | some i =>
    cases hy : byteIndex 0x7e y with
    | none =>
      exfalso
      exact tailFrom7e_ne_nil_of_some hx (by rw [h]; exact tailFrom7e_of_none hy)
    | some j =>
      rw [tailFrom7e_append_of_some r hx, tailFrom7e_append_of_some r hy, h]

/-- The resynchronizer synchronizes exactly when the buffer holds a
delimiter followed by at least one more byte. -/
theorem resyncLoop_ok_iff : ∀ (l : List Nat),
    (resyncLoop l).1 = true ↔ 2 ≤ (tailFrom7e l).length := by
  intro l
  induction l using resyncLoop.induct with
  | case1 => simp [resyncLoop, tailFrom7e, byteIndex]
  | case2 b =>
    have hle : (tailFrom7e [b]).length ≤ 1 := by
      by_cases hb : b = 0x7e
      · subst hb
        rw [tailFrom7e_cons_7e]
        simp
      · rw [tailFrom7e_of_none (byteIndex_none_of_not_mem (by simpa [eq_comm] using hb))]
        simp
    simp only [resyncLoop]
    constructor
    · intro h; simp at h
    · intro h; omega
  | case3 rest =>
    rw [tailFrom7e_cons_7e]
    constructor
    · intro _
      simp only [List.length_cons]
      omega
    · intro _
      simp [resyncLoop]
  | case4 b1 rest h1 =>
    rw [tailFrom7e_cons_7e]
    constructor
    · intro _
      simp only [List.length_cons]
      omega
    · intro _
      simp [resyncLoop, h1]
  | case5 b0 b1 rest h0 j hj ih =>
    rw [resyncLoop, if_neg h0, hj]
    rw [tailFrom7e_cons_ne _ h0, tailFrom7e_of_some hj]
    rwa [tailFrom7e_of_some (l := (b1 :: rest).drop j) (i := 0)
      (by rw [tailFrom7e_cons_drop hj]; simp [byteIndex]), List.drop_zero] at ih
  | case6 b0 b1 rest h0 hj =>
    rw [resyncLoop, if_neg h0, hj]
    rw [tailFrom7e_cons_ne _ h0, tailFrom7e_of_none hj]
    simp

/-- When the resynchronizer synchronizes, the buffer it leaves behind is
the delimiter tail with a stale adjacent end-marker removed. -/
theorem resyncLoop_ok_buffer : ∀ (l : List Nat), 2 ≤ (tailFrom7e l).length →
    (resyncLoop l).2 = dropStale (tailFrom7e l) := by
  intro l
  induction l using resyncLoop.induct with
  | case1 => simp [tailFrom7e, byteIndex]
  | case2 b =>
    intro hlen
    by_cases hb : b = 0x7e
    · subst hb
      rw [tailFrom7e_cons_7e] at hlen
      simp at hlen
    · rw [tailFrom7e_cons_ne [] hb, tailFrom7e, byteIndex] at hlen
      simp at hlen
  | case3 rest =>
    intro _
    rw [tailFrom7e_cons_7e]
    simp [resyncLoop, dropStale]
  | case4 b1 rest h1 =>
    intro _
    rw [tailFrom7e_cons_7e]
    simp [resyncLoop, dropStale, h1]
  | case5 b0 b1 rest h0 j hj ih =>
    intro hlen
    rw [tailFrom7e_cons_ne _ h0, tailFrom7e_of_some hj] at hlen ⊢
    rw [resyncLoop, if_neg h0, hj]
    have htl : tailFrom7e ((b1 :: rest).drop j) = (b1 :: rest).drop j := by
      rw [tailFrom7e_of_some (i := 0) (by rw [tailFrom7e_cons_drop hj]; simp [byteIndex])]
      simp
    rw [ih (by rwa [htl]), htl]
  | case6 b0 b1 rest h0 hj =>
    intro hlen
    rw [tailFrom7e_cons_ne _ h0, tailFrom7e_of_none hj] at hlen
    simp at hlen

/-- When the resynchronizer fails, the junk it leaves behind has the same
(empty or lone-delimiter) tail as the original buffer. -/
theorem resyncLoop_fail_tail : ∀ (l : List Nat), (resyncLoop l).1 = false →
    tailFrom7e (resyncLoop l).2 = tailFrom7e l := by
  intro l
  induction l using resyncLoop.induct with
  | case1 => intro _; simp [resyncLoop]
  | case2 b => intro _; simp [resyncLoop]
  | case3 rest => intro h; simp [resyncLoop] at h
  | case4 b1 rest h1 => intro h; simp [resyncLoop, h1] at h
  | case5 b0 b1 rest h0 j hj ih =>
    intro hfl
    rw [resyncLoop, if_neg h0, hj] at hfl ⊢
    rw [tailFrom7e_cons_ne _ h0, tailFrom7e_of_some hj]
    have htl : tailFrom7e ((b1 :: rest).drop j) = (b1 :: rest).drop j := by
      rw [tailFrom7e_of_some (i := 0) (by rw [tailFrom7e_cons_drop hj]; simp [byteIndex])]
      simp
    rw [ih hfl, htl]
  | case6 b0 b1 rest h0 hj =>
    intro _
    rw [resyncLoop, if_neg h0, hj]
    rw [tailFrom7e_cons_ne _ h0, tailFrom7e_of_none hj]
    rfl

theorem dropStale_append {t : List Nat} (r : List Nat) (h : 2 ≤ t.length) :
    dropStale (t ++ r) = dropStale t ++ r := by
  match t with
  | [] => simp at h
  | [a] => simp at h
  | a :: b :: s =>
    by_cases hb : b = 0x7e
    · simp [dropStale, hb]
    · simp [dropStale, hb]

/-- Appending more bytes to a buffer the resynchronizer accepts does not
change its decision or the frame-aligned buffer it produces. -/
theorem resyncLoop_append_of_ok {l : List Nat} (ys : List Nat)
    (hok : (resyncLoop l).1 = true) :
    (resyncLoop (l ++ ys)).1 = true ∧
      (resyncLoop (l ++ ys)).2 = (resyncLoop l).2 ++ ys := by
  have hlen : 2 ≤ (tailFrom7e l).length := (resyncLoop_ok_iff l).1 hok
  have hsome : ∃ i, byteIndex 0x7e l = some i := by
    cases h : byteIndex 0x7e l with
    | none => rw [tailFrom7e_of_none h] at hlen; simp at hlen
    | some i => exact ⟨i, rfl⟩
  obtain ⟨i, hi⟩ := hsome
  have htl : tailFrom7e (l ++ ys) = tailFrom7e l ++ ys := tailFrom7e_append_of_some ys hi
  have hlen2 : 2 ≤ (tailFrom7e (l ++ ys)).length := by
    rw [htl]
    simp only [List.length_append]
    omega
  refine ⟨(resyncLoop_ok_iff (l ++ ys)).2 hlen2, ?_⟩
  rw [resyncLoop_ok_buffer (l ++ ys) hlen2, resyncLoop_ok_buffer l hlen, htl,
    dropStale_append ys hlen]

/-- A buffer accepted by the resynchronizer starts with the delimiter. -/
theorem resyncLoop_ok_head {l : List Nat} (hok : (resyncLoop l).1 = true) :
    (resyncLoop l).2.headD 0 = 0x7e := by
  have hlen := (resyncLoop_ok_iff l).1 hok
  rw [resyncLoop_ok_buffer l hlen]
  cases hbi : byteIndex 0x7e l with
  | none => rw [tailFrom7e_of_none hbi] at hlen; simp at hlen
  | some i =>
    rw [tailFrom7e_of_some hbi, tailFrom7e_cons_drop hbi] at hlen ⊢
    cases hr : l.drop (i + 1) with
    | nil => rw [hr] at hlen; simp at hlen
    | cons c r =>
      by_cases hc : c = 0x7e
      · simp [dropStale, hc]
      · simp [dropStale, hc]

theorem headD_append {B : List Nat} (ys : List Nat) (h : B ≠ []) :
    (B ++ ys).headD 0 = B.headD 0 := by
  cases B with
  | nil => exact absurd rfl h
  | cons a t => rfl

section RecordLemmas

@[simp] theorem update_buffer_mk (b : List Nat) (s : Bool) (m : Stats) (x : List Nat) :
    { (⟨b, s, m⟩ : DState) with inputBuffer := x } = ⟨x, s, m⟩ := rfl

@[simp] theorem update_buffer_sync_mk (b : List Nat) (s s2 : Bool) (m : Stats) (x : List Nat) :
    { (⟨b, s, m⟩ : DState) with inputBuffer := x, parserSynchronized := s2 } = ⟨x, s2, m⟩ := rfl

@[simp] theorem update_buffer_msgs_mk (b : List Nat) (s : Bool) (m : Stats)
    (x : List Nat) (y : Stats) :
    { (⟨b, s, m⟩ : DState) with inputBuffer := x, msgs := y } = ⟨x, s, y⟩ := rfl

end RecordLemmas

section ParseMessagesLemmas

variable {μ : Type} {env : Env μ}

theorem parseMessages_sync {buf : List Nat} {msgs : Stats} :
    parseMessages env ⟨buf, true, msgs⟩ = parseLoop env ⟨buf, true, msgs⟩ := by
  rw [parseMessages]
  rfl

theorem parseMessages_unsync_ok {buf : List Nat} {msgs : Stats}
    (hok : (resyncLoop buf).1 = true) :
    parseMessages env ⟨buf, false, msgs⟩ =
      afterResync (parseLoop env ⟨(resyncLoop buf).2, true, msgs⟩) := by
  rw [parseMessages]
  simp [hok]

theorem parseMessages_unsync_fail {buf : List Nat} {msgs : Stats}
    (hfl : (resyncLoop buf).1 = false) :
    parseMessages env ⟨buf, false, msgs⟩ = (⟨(resyncLoop buf).2, false, msgs⟩, 1, []) := by
  rw [parseMessages]
  simp [hfl]

/-- Entering the parse loop on a buffer whose head is the delimiter and on
which the end-marker search fails produces no output (covers both the
low-watermark return and the marker-search return). -/
theorem parseLoop_enter_stop {st s : DState} (hh : st.inputBuffer.headD 0 = 0x7e)
    (he : extractPhase env st = StepRes.stop s) : (parseLoop env st).2.2 = [] := by
  by_cases h2 : st.inputBuffer.length < 2
  · rw [parseLoop_short h2]
  · rw [parseLoop_stop_eq (by rw [loopStep_head h2 hh, he])]

/-- Entering the parse loop on a buffer whose head is the delimiter and
which extracts a frame behaves as one extraction plus the rest. -/
theorem parseLoop_enter_frame {st s : DState} {m : Option μ}
    (hh : st.inputBuffer.headD 0 = 0x7e)
    (he : extractPhase env st = StepRes.frame s m) :
    (parseLoop env st).2.2 = m.toList ++ (parseLoop env s).2.2 := by
  by_cases h2 : st.inputBuffer.length < 2
  · exfalso
    have hd1 : st.inputBuffer.drop 1 = [] :=
      List.eq_nil_of_length_eq_zero (by simp only [List.length_drop]; omega)
    have hb : byteIndex 0x7e (st.inputBuffer.drop 1) = none := by rw [hd1]; rfl
    rw [extractPhase_none hb] at he
    exact StepRes.noConfusion he
  · rw [parseLoop_frame_eq (by rw [loopStep_head h2 hh, he])]

end ParseMessagesLemmas

/-- Resume lemma: running the parse loop over a buffer extended by `ys`
emits exactly the messages of the loop over the original buffer followed by
the messages of a fresh `_parseMessages` pass over the leftover state with
`ys` appended.  This is the heart of chunking independence. -/
theorem parseLoop_append {μ : Type} (env : Env μ) :
    ∀ (n : Nat) (buf : List Nat) (msgs : Stats) (ys : List Nat), buf.length ≤ n →
      (parseLoop env ⟨buf ++ ys, true, msgs⟩).2.2 =
        (parseLoop env ⟨buf, true, msgs⟩).2.2 ++
          (parseMessages env
            { (parseLoop env ⟨buf, true, msgs⟩).1 with
              inputBuffer := (parseLoop env ⟨buf, true, msgs⟩).1.inputBuffer ++ ys }).2.2 := by
  intro n
  induction n using Nat.strong_induction_on with
  | _ n IH =>
    intro buf msgs ys hn
    by_cases h2 : buf.length < 2
    · rw [parseLoop_short (show ((⟨buf, true, msgs⟩ : DState)).inputBuffer.length < 2 from h2)]
      simp [parseMessages_sync]
    · by_cases hh : buf.headD 0 = 0x7e
      · cases hj : byteIndex 0x7e (buf.drop 1) with
        | none =>
          have hstp : loopStep env (⟨buf, true, msgs⟩ : DState) =
              (StepRes.stop ⟨buf, true, msgs⟩, 0) := by
            rw [loopStep_head h2 hh, extractPhase_none hj]
          rw [parseLoop_stop_eq hstp]
          simp [parseMessages_sync]
        | some j =>
          have hlt := byteIndex_lt_length hj
          simp only [List.length_drop] at hlt
          have hbne : buf ≠ [] := by
            intro hnil
            rw [hnil] at h2
            simp at h2
          have hd1 : (buf ++ ys).drop 1 = buf.drop 1 ++ ys :=
            drop_append_le ys (by omega)
          have hj2 : byteIndex 0x7e ((buf ++ ys).drop 1) = some j := by
            rw [hd1]
            exact byteIndex_append_some ys hj
          have htk : ((buf ++ ys).drop 1).take j = (buf.drop 1).take j := by
            rw [hd1]
            exact take_append_le ys (Nat.le_of_lt (byteIndex_lt_length hj))
          have hdp : (buf ++ ys).drop (j + 2) = buf.drop (j + 2) ++ ys :=
            drop_append_le ys (by omega)
          have h2L : ¬ (buf ++ ys).length < 2 := by
            simp only [List.length_append]
            omega
          have hhL : (buf ++ ys).headD 0 = 0x7e := by
            rw [headD_append ys hbne]
            exact hh
          have htkt : List.take j (buf ++ ys).tail = List.take j buf.tail := by
            rw [← List.drop_one, ← List.drop_one]
            exact htk
          have hls : loopStep env ⟨buf ++ ys, true, msgs⟩ =
              (StepRes.frame
                ⟨buf.drop (j + 2) ++ ys, true,
                  (decodeMessage env msgs ((buf.drop 1).take j)).1⟩
                (decodeMessage env msgs ((buf.drop 1).take j)).2, 0) := by
            rw [loopStep_head h2L hhL, extractPhase_some hj2]
            simp [htk, htkt, hdp, ← List.drop_one]
          have hfs : loopStep env ⟨buf, true, msgs⟩ =
              (StepRes.frame
                ⟨buf.drop (j + 2), true,
                  (decodeMessage env msgs ((buf.drop 1).take j)).1⟩
                (decodeMessage env msgs ((buf.drop 1).take j)).2, 0) := by
            rw [loopStep_head h2 hh, extractPhase_some hj]
          rw [parseLoop_frame_eq hls, parseLoop_frame_eq hfs]
          have hIH := IH (buf.drop (j + 2)).length
            (by simp only [List.length_drop]; omega)
            (buf.drop (j + 2)) ((decodeMessage env msgs ((buf.drop 1).take j)).1) ys
            (Nat.le_refl _)
          simp only []
          rw [hIH]
          simp [List.append_assoc]
      · have hbne : buf ≠ [] := by
          intro hnil
          rw [hnil] at h2
          simp at h2
        have h2L : ¬ (buf ++ ys).length < 2 := by
          simp only [List.length_append]
          omega
        have hhL : ¬ (buf ++ ys).headD 0 = 0x7e := by
          rw [headD_append ys hbne]
          exact hh
        by_cases hok : (resyncLoop buf).1 = true
        · obtain ⟨hok2, hbuf2⟩ := resyncLoop_append_of_ok ys hok
          have hlsL : loopStep env ⟨buf ++ ys, true, msgs⟩ =
              (extractPhase env ⟨(resyncLoop buf).2 ++ ys, true, msgs⟩, 1) := by
            rw [loopStep_resync_ok (show ¬ ((⟨buf ++ ys, true, msgs⟩ : DState)).inputBuffer.length < 2 from h2L) hhL hok2]
            rw [update_buffer_sync_mk, hbuf2]
          have hlsR : loopStep env ⟨buf, true, msgs⟩ =
              (extractPhase env ⟨(resyncLoop buf).2, true, msgs⟩, 1) := by
            rw [loopStep_resync_ok (show ¬ ((⟨buf, true, msgs⟩ : DState)).inputBuffer.length < 2 from h2) hh hok]
          have hRlen := resyncLoop_length_le buf
          cases hj : byteIndex 0x7e ((resyncLoop buf).2.drop 1) with
          | some j =>
            have hlt := byteIndex_lt_length hj
            simp only [List.length_drop] at hlt
            have hRd1 : ((resyncLoop buf).2 ++ ys).drop 1 = (resyncLoop buf).2.drop 1 ++ ys :=
              drop_append_le ys (by omega)
            have hj2 : byteIndex 0x7e (((resyncLoop buf).2 ++ ys).drop 1) = some j := by
              rw [hRd1]
              exact byteIndex_append_some ys hj
            have htk : (((resyncLoop buf).2 ++ ys).drop 1).take j =
                ((resyncLoop buf).2.drop 1).take j := by
              rw [hRd1]
              exact take_append_le ys (Nat.le_of_lt (byteIndex_lt_length hj))
            have hdp : ((resyncLoop buf).2 ++ ys).drop (j + 2) =
                (resyncLoop buf).2.drop (j + 2) ++ ys :=
              drop_append_le ys (by omega)
            have htkt : List.take j ((resyncLoop buf).2 ++ ys).tail =
                List.take j (resyncLoop buf).2.tail := by
              rw [← List.drop_one, ← List.drop_one]
              exact htk
            have hlsL2 : loopStep env ⟨buf ++ ys, true, msgs⟩ =
                (StepRes.frame
                  ⟨(resyncLoop buf).2.drop (j + 2) ++ ys, true,
                    (decodeMessage env msgs (((resyncLoop buf).2.drop 1).take j)).1⟩
                  (decodeMessage env msgs (((resyncLoop buf).2.drop 1).take j)).2, 1) := by
              rw [hlsL, extractPhase_some hj2]
              simp [htk, htkt, hdp, ← List.drop_one]
            have hlsR2 : loopStep env ⟨buf, true, msgs⟩ =
                (StepRes.frame
                  ⟨(resyncLoop buf).2.drop (j + 2), true,
                    (decodeMessage env msgs (((resyncLoop buf).2.drop 1).take j)).1⟩
                  (decodeMessage env msgs (((resyncLoop buf).2.drop 1).take j)).2, 1) := by
              rw [hlsR, extractPhase_some hj]
            rw [parseLoop_frame_eq hlsL2, parseLoop_frame_eq hlsR2]
            have hIH := IH ((resyncLoop buf).2.drop (j + 2)).length
              (by simp only [List.length_drop]; omega)
              ((resyncLoop buf).2.drop (j + 2))
              ((decodeMessage env msgs (((resyncLoop buf).2.drop 1).take j)).1) ys
              (Nat.le_refl _)
            simp only []
            rw [hIH]
            simp [List.append_assoc]
          | none =>
            have hRhead : (resyncLoop buf).2.headD 0 = 0x7e := resyncLoop_ok_head hok
            have hRne : (resyncLoop buf).2 ≠ [] := by
              intro hnil
              rw [hnil] at hRhead
              simp at hRhead
            have hRheadL : ((resyncLoop buf).2 ++ ys).headD 0 = 0x7e := by
              rw [headD_append ys hRne]
              exact hRhead
            have hplR : parseLoop env ⟨buf, true, msgs⟩ =
                (⟨(resyncLoop buf).2, true, msgs⟩, 1, []) :=
              parseLoop_stop_eq (by rw [hlsR, extractPhase_none hj])
            rw [hplR]
            dsimp only
            rw [parseMessages_sync]
            cases he2 : extractPhase env ⟨(resyncLoop buf).2 ++ ys, true, msgs⟩ with
            | stop s =>
              have hstp2 : loopStep env (⟨buf ++ ys, true, msgs⟩ : DState) =
                  (StepRes.stop s, 1) := by
                rw [hlsL, he2]
              rw [parseLoop_stop_eq hstp2]
              rw [parseLoop_enter_stop hRheadL he2]
              simp
            | frame s m =>
              have hfrm2 : loopStep env (⟨buf ++ ys, true, msgs⟩ : DState) =
                  (StepRes.frame s m, 1) := by
                rw [hlsL, he2]
              rw [parseLoop_frame_eq hfrm2]
              rw [parseLoop_enter_frame hRheadL he2]
              simp
        · have hfl : (resyncLoop buf).1 = false := by
            simp only [Bool.not_eq_true] at hok
            exact hok
          have hplR : parseLoop env ⟨buf, true, msgs⟩ =
              (⟨(resyncLoop buf).2, false, msgs⟩, 1, []) :=
            parseLoop_stop_eq (loopStep_resync_fail
              (show ¬ ((⟨buf, true, msgs⟩ : DState)).inputBuffer.length < 2 from h2) hh hfl)
          rw [hplR]
          dsimp only
          have htails : tailFrom7e (buf ++ ys) = tailFrom7e ((resyncLoop buf).2 ++ ys) :=
            tailFrom7e_append_congr (resyncLoop_fail_tail buf hfl).symm ys
          by_cases hok2 : (resyncLoop ((resyncLoop buf).2 ++ ys)).1 = true
          · have hokL : (resyncLoop (buf ++ ys)).1 = true := by
              rw [resyncLoop_ok_iff, htails, ← resyncLoop_ok_iff]
              exact hok2
            have hbufeq : (resyncLoop (buf ++ ys)).2 =
                (resyncLoop ((resyncLoop buf).2 ++ ys)).2 := by
              rw [resyncLoop_ok_buffer _ ((resyncLoop_ok_iff _).1 hokL),
                resyncLoop_ok_buffer _ ((resyncLoop_ok_iff _).1 hok2), htails]
            rw [parseMessages_unsync_ok hok2]
            have hXhead : (resyncLoop ((resyncLoop buf).2 ++ ys)).2.headD 0 = 0x7e :=
              resyncLoop_ok_head hok2
            have hlsL : loopStep env ⟨buf ++ ys, true, msgs⟩ =
                (extractPhase env
                  ⟨(resyncLoop ((resyncLoop buf).2 ++ ys)).2, true, msgs⟩, 1) := by
              rw [loopStep_resync_ok (show ¬ ((⟨buf ++ ys, true, msgs⟩ : DState)).inputBuffer.length < 2 from h2L) hhL hokL]
              rw [update_buffer_sync_mk, hbufeq]
            cases he2 : extractPhase env
                ⟨(resyncLoop ((resyncLoop buf).2 ++ ys)).2, true, msgs⟩ with
            | stop s =>
              have hstp2 : loopStep env (⟨buf ++ ys, true, msgs⟩ : DState) =
                  (StepRes.stop s, 1) := by
                rw [hlsL, he2]
              rw [parseLoop_stop_eq hstp2]
              have houtX := parseLoop_enter_stop hXhead he2
              simp [afterResync, houtX]
            | frame s m =>
              have hfrm2 : loopStep env (⟨buf ++ ys, true, msgs⟩ : DState) =
                  (StepRes.frame s m, 1) := by
                rw [hlsL, he2]
              rw [parseLoop_frame_eq hfrm2]
              have houtX := parseLoop_enter_frame hXhead he2
              simp [afterResync, houtX]
          · have hflX : (resyncLoop ((resyncLoop buf).2 ++ ys)).1 = false := by
              simp only [Bool.not_eq_true] at hok2
              exact hok2
            have hflL : (resyncLoop (buf ++ ys)).1 = false := by
              cases hLb : (resyncLoop (buf ++ ys)).1 with
              | false => rfl
              | true =>
                exfalso
                apply hok2
                rw [resyncLoop_ok_iff, ← htails, ← resyncLoop_ok_iff]
                exact hLb
            rw [parseLoop_stop_eq
              (loopStep_resync_fail
                (show ¬ ((⟨buf ++ ys, true, msgs⟩ : DState)).inputBuffer.length < 2 from h2L)
                hhL hflL)]
            rw [parseMessages_unsync_fail hflX]
            simp

/-- Resume lemma at the `_parseMessages` level: parsing a buffer extended
by `ys` emits the messages of parsing the original buffer followed by the
messages of a fresh pass over the leftover state with `ys` appended. -/
theorem parseMessages_append {μ : Type} (env : Env μ) (st : DState) (ys : List Nat) :
    (parseMessages env { st with inputBuffer := st.inputBuffer ++ ys }).2.2 =
      (parseMessages env st).2.2 ++
        (parseMessages env
          { (parseMessages env st).1 with
            inputBuffer := (parseMessages env st).1.inputBuffer ++ ys }).2.2 := by
  obtain ⟨buf, sync, msgs⟩ := st
  cases sync with
  | true =>
    rw [update_buffer_mk, parseMessages_sync, parseMessages_sync]
    exact parseLoop_append env buf.length buf msgs ys (Nat.le_refl _)
  | false =>
    rw [update_buffer_mk]
    by_cases hok : (resyncLoop buf).1 = true
    · obtain ⟨hok2, hbuf2⟩ := resyncLoop_append_of_ok ys hok
      rw [parseMessages_unsync_ok hok2, hbuf2, parseMessages_unsync_ok hok]
      have hpl := parseLoop_append env (resyncLoop buf).2.length (resyncLoop buf).2 msgs ys
        (Nat.le_refl _)
      simp only [afterResync]
      exact hpl
    · have hfl : (resyncLoop buf).1 = false := by
        simp only [Bool.not_eq_true] at hok
        exact hok
      rw [parseMessages_unsync_fail hfl]
      dsimp only
      have htails : tailFrom7e (buf ++ ys) = tailFrom7e ((resyncLoop buf).2 ++ ys) :=
        tailFrom7e_append_congr (resyncLoop_fail_tail buf hfl).symm ys
      by_cases hok2 : (resyncLoop ((resyncLoop buf).2 ++ ys)).1 = true
      · have hokL : (resyncLoop (buf ++ ys)).1 = true := by
          rw [resyncLoop_ok_iff, htails, ← resyncLoop_ok_iff]
          exact hok2
        have hbufeq : (resyncLoop (buf ++ ys)).2 =
            (resyncLoop ((resyncLoop buf).2 ++ ys)).2 := by
          rw [resyncLoop_ok_buffer _ ((resyncLoop_ok_iff _).1 hokL),
            resyncLoop_ok_buffer _ ((resyncLoop_ok_iff _).1 hok2), htails]
        rw [parseMessages_unsync_ok hokL, hbufeq, parseMessages_unsync_ok hok2]
        simp [afterResync]
      · have hflX : (resyncLoop ((resyncLoop buf).2 ++ ys)).1 = false := by
          simp only [Bool.not_eq_true] at hok2
          exact hok2
        have hflL : (resyncLoop (buf ++ ys)).1 = false := by
          cases hLb : (resyncLoop (buf ++ ys)).1 with
          | false => rfl
          | true =>
            exfalso
            apply hok2
            rw [resyncLoop_ok_iff, ← htails, ← resyncLoop_ok_iff]
            exact hLb
        rw [parseMessages_unsync_fail hflL, parseMessages_unsync_fail hflX]
        simp

/-- Splitting one ingestion call into two consecutive calls preserves the
emitted message sequence. -/
theorem addBytes_append {μ : Type} (env : Env μ) (st : DState) (xs ys : List Nat) :
    (addBytes env st (xs ++ ys)).2.2 =
      (addBytes env st xs).2.2 ++ (addBytes env (addBytes env st xs).1 ys).2.2 := by
  rw [addBytes, addBytes, addBytes, ← List.append_assoc]
  have hpm := parseMessages_append env { st with inputBuffer := st.inputBuffer ++ xs } ys
  simpa using hpm

theorem feedAll_cons {μ : Type} (env : Env μ) (st : DState) (c : List Nat)
    (cs : List (List Nat)) :
    (feedAll env st (c :: cs)).2.2 =
      (addBytes env st c).2.2 ++ (feedAll env (addBytes env st c).1 cs).2.2 := rfl

theorem feedAll_cons_join {μ : Type} (env : Env μ) :
    ∀ (cs : List (List Nat)) (c : List Nat) (st : DState),
      (feedAll env st (c :: cs)).2.2 = (addBytes env st (c :: cs).join).2.2 := by
  intro cs
  induction cs with
  | nil =>
    intro c st
    rw [feedAll_cons]
    simp [feedAll]
  | cons c2 cs ih =>
    intro c st
    have hsplit := addBytes_append env st c (c2 :: cs).join
    have hj : ((c :: c2 :: cs) : List (List Nat)).join = c ++ (c2 :: cs).join := by
      simp
    rw [feedAll_cons, ih c2 (addBytes env st c).1, hj, hsplit]

section StatsLemmas

theorem statsMem_ensure (m : Stats) (k : Nat) : statsMem (statsEnsure m k) k = true := by
  rw [statsEnsure]
  by_cases h : statsMem m k = true
  · rw [if_pos h]
    exact h
  · rw [if_neg h]
    simp [statsMem]

theorem find_none_of_not_mem {m : Stats} {k : Nat} (h : statsMem m k = false) :
    m.find? (fun e => e.1 = k) = none := by
  induction m with
  | nil => rfl
  | cons e r ih =>
    simp [statsMem] at h
    simp [List.find?, h.1, ih (by simp [statsMem]; exact h.2)]

theorem succCount_ensure (m : Stats) (k j : Nat) :
    succCount (statsEnsure m k) j = succCount m j := by
  rw [statsEnsure]
  by_cases h : statsMem m k = true
  · rw [if_pos h]
  · rw [if_neg h]
    rw [succCount, succCount, List.find?_append]
    cases hf : m.find? (fun e => e.1 = j) with
    | some e => simp
    | none =>
      simp only [Option.none_or]
      by_cases hjk : k = j
      · subst hjk
        rw [find_none_of_not_mem (by simpa using h)] at hf
        simp [List.find?]
      · simp [List.find?, hjk]

theorem failCount_ensure (m : Stats) (k j : Nat) :
    failCount (statsEnsure m k) j = failCount m j := by
  rw [statsEnsure]
  by_cases h : statsMem m k = true
  · rw [if_pos h]
  · rw [if_neg h]
    rw [failCount, failCount, List.find?_append]
    cases hf : m.find? (fun e => e.1 = j) with
    | some e => simp
    | none =>
      simp only [Option.none_or]
      by_cases hjk : k = j
      · subst hjk
        rw [find_none_of_not_mem (by simpa using h)] at hf
        simp [List.find?]
      · simp [List.find?, hjk]

theorem succCount_incFail (m : Stats) (k j : Nat) :
    succCount (statsIncFail m k) j = succCount m j := by
  induction m with
  | nil => rfl
  | cons e r ih =>
    rw [statsIncFail]
    by_cases hek : e.1 = k
    · rw [if_pos hek]
      by_cases hej : e.1 = j
      · simp [succCount, List.find?, hej]
      · simp [succCount, List.find?, hej]
    · rw [if_neg hek]
      by_cases hej : e.1 = j
      · simp [succCount, List.find?, hej]
      · simp only [succCount, List.find?, hej]
        simp only [decide_eq_true_eq, hej, decide_False]
        exact ih

theorem failCount_incSucc (m : Stats) (k j : Nat) :
    failCount (statsIncSucc m k) j = failCount m j := by
  induction m with
  | nil => rfl
  | cons e r ih =>
    rw [statsIncSucc]
    by_cases hek : e.1 = k
    · rw [if_pos hek]
      by_cases hej : e.1 = j
      · simp [failCount, List.find?, hej]
      · simp [failCount, List.find?, hej]
    · rw [if_neg hek]
      by_cases hej : e.1 = j
      · simp [failCount, List.find?, hej]
      · simp only [failCount, List.find?, hej]
        simp only [decide_eq_true_eq, hej, decide_False]
        exact ih

theorem failCount_incFail_self : ∀ (m : Stats) (k : Nat), statsMem m k = true →
    failCount (statsIncFail m k) k = failCount m k + 1 := by
  intro m
  induction m with
  | nil => intro k h; simp [statsMem] at h
  | cons e r ih =>
    intro k h
    rw [statsIncFail]
    by_cases hek : e.1 = k
    · rw [if_pos hek]
      simp [failCount, List.find?, hek]
    · rw [if_neg hek]
      have hr : statsMem r k = true := by
        simp [statsMem] at h
        rcases h with h1 | h2
        · exact absurd h1 hek
        · simp [statsMem]
          exact h2
      simp only [failCount, List.find?, hek, decide_False]
      exact ih k hr

theorem failCount_incFail_ne : ∀ (m : Stats) (k j : Nat), ¬ j = k →
    failCount (statsIncFail m k) j = failCount m j := by
  intro m
  induction m with
  | nil => intro k j _; rfl
  | cons e r ih =>
    intro k j hjk
    rw [statsIncFail]
    by_cases hek : e.1 = k
    · rw [if_pos hek]
      have hej : ¬ e.1 = j := by
        rw [hek]
        intro hc
        exact hjk hc.symm
      simp [failCount, List.find?, hej]
    · rw [if_neg hek]
      by_cases hej : e.1 = j
      · simp [failCount, List.find?, hej]
      · simp only [failCount, List.find?, hej, decide_False]
        exact ih k j hjk

theorem succCount_incSucc_self : ∀ (m : Stats) (k : Nat), statsMem m k = true →
    succCount (statsIncSucc m k) k = succCount m k + 1 := by
  intro m
  induction m with
  | nil => intro k h; simp [statsMem] at h
  | cons e r ih =>
    intro k h
    rw [statsIncSucc]
    by_cases hek : e.1 = k
    · rw [if_pos hek]
      simp [succCount, List.find?, hek]
    · rw [if_neg hek]
      have hr : statsMem r k = true := by
        simp [statsMem] at h
        rcases h with h1 | h2
        · exact absurd h1 hek
        · simp [statsMem]
          exact h2
      simp only [succCount, List.find?, hek, decide_False]
      exact ih k hr

theorem succCount_incSucc_ne : ∀ (m : Stats) (k j : Nat), ¬ j = k →
    succCount (statsIncSucc m k) j = succCount m j := by
  intro m
  induction m with
  | nil => intro k j _; rfl
  | cons e r ih =>
    intro k j hjk
    rw [statsIncSucc]
    by_cases hek : e.1 = k
    · rw [if_pos hek]
      have hej : ¬ e.1 = j := by
        rw [hek]
        intro hc
        exact hjk hc.symm
      simp [succCount, List.find?, hej]
    · rw [if_neg hek]
      by_cases hej : e.1 = j
      · simp [succCount, List.find?, hej]
      · simp only [succCount, List.find?, hej, decide_False]
        exact ih k j hjk

/-- Total number of counted events (successes plus CRC failures). -/
def statsTotal (m : Stats) : Nat := (m.map (fun e => e.2.1 + e.2.2)).sum

theorem statsTotal_ensure (m : Stats) (k : Nat) :
    statsTotal (statsEnsure m k) = statsTotal m := by
  rw [statsEnsure]
  by_cases h : statsMem m k = true
  · rw [if_pos h]
  · rw [if_neg h]
    simp [statsTotal]

theorem statsTotal_incFail : ∀ (m : Stats) (k : Nat), statsMem m k = true →
    statsTotal (statsIncFail m k) = statsTotal m + 1 := by
  intro m
  induction m with
  | nil => intro k h; simp [statsMem] at h
  | cons e r ih =>
    intro k h
    rw [statsIncFail]
    by_cases hek : e.1 = k
    · rw [if_pos hek]
      simp only [statsTotal, List.map_cons, List.sum_cons]
      omega
    · rw [if_neg hek]
      have hr : statsMem r k = true := by
        simp [statsMem] at h
        rcases h with h1 | h2
        · exact absurd h1 hek
        · simp [statsMem]
          exact h2
      have ihk := ih k hr
      simp only [statsTotal, List.map_cons, List.sum_cons] at ihk ⊢
      omega

theorem statsTotal_incSucc : ∀ (m : Stats) (k : Nat), statsMem m k = true →
    statsTotal (statsIncSucc m k) = statsTotal m + 1 := by
  intro m
  induction m with
  | nil => intro k h; simp [statsMem] at h
  | cons e r ih =>
    intro k h
    rw [statsIncSucc]
    by_cases hek : e.1 = k
    · rw [if_pos hek]
      simp only [statsTotal, List.map_cons, List.sum_cons]
      omega
    · rw [if_neg hek]
      have hr : statsMem r k = true := by
        simp [statsMem] at h
        rcases h with h1 | h2
        · exact absurd h1 hek
        · simp [statsMem]
          exact h2
      have ihk := ih k hr
      simp only [statsTotal, List.map_cons, List.sum_cons] at ihk ⊢
      omega

end StatsLemmas

section EscapeRoundTrip

/-- Modelled from the spec: the sender-side byte stuffing.  Every
occurrence of the frame delimiter 0x7e or the escape byte 0x7d is replaced
by 0x7d followed by the byte xor 0x20; all other bytes are copied. -/
def escape : List Nat → List Nat
  | [] => []
  | b :: bs =>
    if b = 0x7e ∨ b = 0x7d then 0x7d :: (b ^^^ 0x20) :: escape bs else b :: escape bs

theorem escape_of_plain {P : List Nat} (h : ∀ b ∈ P, ¬ (b = 0x7e ∨ b = 0x7d)) :
    escape P = P := by
  induction P with
  | nil => rfl
  | cons b bs ih =>
    rw [escape, if_neg (h b (List.mem_cons_self b bs))]
    rw [ih (fun c hc => h c (List.mem_cons_of_mem b hc))]

theorem escape_append_plain {pre : List Nat} (X : List Nat)
    (h : ∀ b ∈ pre, ¬ (b = 0x7e ∨ b = 0x7d)) :
    escape (pre ++ X) = pre ++ escape X := by
  induction pre with
  | nil => simp
  | cons b bs ih =>
    rw [List.cons_append, escape, if_neg (h b (List.mem_cons_self b bs))]
    rw [ih (fun c hc => h c (List.mem_cons_of_mem b hc))]
    rfl

theorem split_at_special (P : List Nat) :
    (∀ b ∈ P, ¬ (b = 0x7e ∨ b = 0x7d)) ∨
      ∃ pre s rest, P = pre ++ s :: rest ∧
        (∀ b ∈ pre, ¬ (b = 0x7e ∨ b = 0x7d)) ∧ (s = 0x7e ∨ s = 0x7d) := by
  induction P with
  | nil => left; intro b hb; simp at hb
  | cons a P ih =>
    by_cases ha : a = 0x7e ∨ a = 0x7d
    · right
      exact ⟨[], a, P, by simp, by intro b hb; simp at hb, ha⟩
    · rcases ih with hplain | ⟨pre, s, rest, hP, hpre, hs⟩
      · left
        intro b hb
        rcases List.mem_cons.1 hb with hba | hbp
        · rw [hba]; exact ha
        · exact hplain b hbp
      · right
        refine ⟨a :: pre, s, rest, by rw [hP]; rfl, ?_, hs⟩
        intro b hb
        rcases List.mem_cons.1 hb with hba | hbp
        · rw [hba]; exact ha
        · exact hpre b hbp

theorem xor_32_cancel (b : Nat) : b ^^^ 0x20 ^^^ 0x20 = b := by
  rw [Nat.xor_assoc, Nat.xor_self, Nat.xor_zero]

theorem unescapeLoop_escape :
    ∀ (n : Nat) (P acc : List Nat), P.length ≤ n → unescapeLoop acc (escape P) = acc ++ P := by
  intro n
  induction n using Nat.strong_induction_on with
  | _ n IH =>
    intro P acc hn
    rcases split_at_special P with hplain | ⟨pre, s, rest, hP, hpre, hs⟩
    · have hesc : escape P = P := escape_of_plain hplain
      have hno : byteIndex 0x7d P = none :=
        byteIndex_none_of_not_mem (fun hmem => hplain 0x7d hmem (Or.inr rfl))
      rw [unescapeLoop, hesc, hno]
    · subst hP
      have h125 : (0x7d : Nat) ∉ pre := fun hmem => hpre 0x7d hmem (Or.inr rfl)
      have hesc : escape (pre ++ s :: rest) = pre ++ 0x7d :: (s ^^^ 0x20) :: escape rest := by
        rw [escape_append_plain (s :: rest) hpre, escape, if_pos hs]
      have hidx : byteIndex 0x7d (pre ++ 0x7d :: (s ^^^ 0x20) :: escape rest) =
          some pre.length := byteIndex_append_self _ h125
      have hget : (pre ++ 0x7d :: (s ^^^ 0x20) :: escape rest).get? (pre.length + 1) =
          some (s ^^^ 0x20) := by
        rw [← List.get?_drop, List.drop_left]
        rfl
      have htake : (pre ++ 0x7d :: (s ^^^ 0x20) :: escape rest).take pre.length = pre :=
        List.take_left pre _
      have hdrop : (pre ++ 0x7d :: (s ^^^ 0x20) :: escape rest).drop (pre.length + 2) =
          escape rest := by
        have hsplit : pre ++ 0x7d :: (s ^^^ 0x20) :: escape rest =
            (pre ++ [0x7d, s ^^^ 0x20]) ++ escape rest := by
          simp
        rw [hsplit]
        exact List.drop_left' (by simp)
      rw [hesc, unescapeLoop, hidx]
      dsimp only
      rw [hget]
      dsimp only
      rw [htake, hdrop]
      have hlen : rest.length < n := by
        simp only [List.length_append, List.length_cons] at hn
        omega
      rw [IH rest.length hlen rest (acc ++ pre ++ [s ^^^ 0x20 ^^^ 0x20]) (Nat.le_refl _)]
      rw [xor_32_cancel]
      simp

/-- Byte stuffing round trip: unescaping an escaped sequence restores it. -/
theorem unescape_escape (P : List Nat) : unescape (escape P) = P := by
  rw [unescape, unescapeLoop_escape P.length P [] (Nat.le_refl _)]
  rfl

end EscapeRoundTrip

section ExceptEmbedding

/-!
Exception-aware mirror of the decoder.  Every Python operation that can
raise an exception that is not caught by a surrounding `try`/`except` is
made explicit in the `Except` monad: the `inputBuffer[0]` read at the top
of the `_parseMessages` loop, the `buffer[0]`/`buffer[1]` reads in
`_resynchronizeParser`, the `msg[0]` read in `_decodeMessage`, and the
`self.return_handler(m)` call, which raises `TypeError` when no handler was
registered (`addReturnHandler` was never called).  The `bytearray.index`
calls and the `msg[i+1]` read inside `_unescape` are wrapped in
`try`/`except` by the source, so they are total in both embeddings and the
same `unescape` is shared.  The claim theorem shows the mirror never
reaches an error for any input once a handler is registered. -/

def resyncLoopE (buf : List Nat) : Except String (Bool × List Nat) :=
  if h2 : buf.length < 2 then Except.ok (false, buf)
  else
    match h0 : buf.get? 0, buf.get? 1 with
    | some b0, some b1 =>
      if hb : b0 = 0x7e then
        if b1 = 0x7e then Except.ok (true, buf.drop 1)
        else Except.ok (true, buf)
      else
        match hbi : byteIndex 0x7e buf with
        | some i => resyncLoopE (buf.drop i)
        | none => resyncLoopE (buf.drop buf.length)
    | _, _ => Except.error "IndexError: inputBuffer"
termination_by buf.length
decreasing_by
  · simp only [List.length_drop]
    have hipos : 0 < i := by
      rcases Nat.eq_zero_or_pos i with hz | hp
      · exfalso
        subst hz
        have hcons := byteIndex_drop_cons hbi
        simp only [List.drop_zero] at hcons
        rw [hcons] at h0
        simp at h0
        exact hb h0.symm
      · exact hp
    omega
  · simp only [List.length_drop]
    omega

theorem resyncLoopE_eq_aux : ∀ (n : Nat) (buf : List Nat), buf.length ≤ n →
    resyncLoopE buf = Except.ok (resyncLoop buf) := by
  intro n
  induction n using Nat.strong_induction_on with
  | _ n IH =>
    intro buf hn
    match buf with
    | [] =>
      rw [resyncLoopE]
      simp [resyncLoop]
    | [b] =>
      rw [resyncLoopE]
      simp [resyncLoop]
    | b0 :: b1 :: rest =>
      rw [resyncLoopE]
      rw [dif_neg (by simp)]
      dsimp only [List.get?]
      by_cases hb : b0 = 0x7e
      · rw [dif_pos hb]
        by_cases hb1 : b1 = 0x7e
        · rw [if_pos hb1, resyncLoop, if_pos hb, if_pos hb1]
          rfl
        · rw [if_neg hb1, resyncLoop, if_pos hb, if_neg hb1]
      · rw [dif_neg hb]
        rw [resyncLoop, if_neg hb]
        have hbi0 : byteIndex 0x7e (b0 :: b1 :: rest) =
            (byteIndex 0x7e (b1 :: rest)).map (· + 1) := by
          rw [byteIndex, if_neg hb]
        cases hbj : byteIndex 0x7e (b1 :: rest) with
        | some j =>
          have hbi : byteIndex 0x7e (b0 :: b1 :: rest) = some (j + 1) := by
            rw [hbi0, hbj]
            rfl
          rw [hbi]
          dsimp only
          have hdrop : (b0 :: b1 :: rest).drop (j + 1) = (b1 :: rest).drop j := rfl
          rw [hdrop]
          exact IH ((b1 :: rest).drop j).length
            (by simp only [List.length_cons] at hn
                simp only [List.length_drop, List.length_cons]
                omega) _ (Nat.le_refl _)
        | none =>
          have hbi : byteIndex 0x7e (b0 :: b1 :: rest) = none := by
            rw [hbi0, hbj]
            rfl
          rw [hbi]
          dsimp only
          rw [List.drop_length]
          rw [resyncLoopE]
          simp

theorem resyncLoopE_eq (buf : List Nat) : resyncLoopE buf = Except.ok (resyncLoop buf) :=
  resyncLoopE_eq_aux buf.length buf (Nat.le_refl _)

def decodeMessageE {μ : Type} (env : Env μ) (handlerSet : Bool) (msgs : Stats)
    (escaped : List Nat) : Except String (Stats × Option μ) :=
  let rawMsg := unescape escaped
  if rawMsg.length < 5 then Except.ok (msgs, none)
  else
    let msg := rawMsg.take (rawMsg.length - 2)
    let crc := rawMsg.drop (rawMsg.length - 2)
    match msg.get? 0 with
    | none => Except.error "IndexError: msg[0]"
    | some t =>
      if env.crcCheck msg crc = false then
        Except.ok (statsIncFail (statsEnsure msgs t) t, none)
      else
        match env.messageToObject msg with
        | none => Except.ok (statsIncSucc (statsEnsure msgs t) t, none)
        | some m =>
          if handlerSet then Except.ok (statsIncSucc (statsEnsure msgs t) t, some m)
          else Except.error "TypeError: return_handler is None"

theorem get?_zero_of_pos {l : List Nat} (h : 0 < l.length) : l.get? 0 = some (l.headD 0) := by
  cases l with
  | nil => simp at h
  | cons a t => rfl

theorem decodeMessageE_eq {μ : Type} (env : Env μ) (msgs : Stats) (escaped : List Nat) :
    decodeMessageE env true msgs escaped = Except.ok (decodeMessage env msgs escaped) := by
  simp only [decodeMessageE, decodeMessage]
  by_cases hlen : (unescape escaped).length < 5
  · rw [if_pos hlen, if_pos hlen]
  · rw [if_neg hlen, if_neg hlen]
    have hpos : 0 < ((unescape escaped).take ((unescape escaped).length - 2)).length := by
      simp only [List.length_take]
      omega
    rw [get?_zero_of_pos hpos]
    dsimp only
    by_cases hcrc : env.crcCheck ((unescape escaped).take ((unescape escaped).length - 2))
        ((unescape escaped).drop ((unescape escaped).length - 2)) = false
    · rw [if_pos hcrc, if_pos hcrc]
    · rw [if_neg hcrc, if_neg hcrc]
      cases env.messageToObject ((unescape escaped).take ((unescape escaped).length - 2)) with
      | none => rfl
      | some m => rfl

def extractPhaseE {μ : Type} (env : Env μ) (hs : Bool) (st : DState) :
    Except String (StepRes μ) :=
  match byteIndex 0x7e (st.inputBuffer.drop 1) with
  | none => Except.ok (StepRes.stop st)
  | some j =>
    match decodeMessageE env hs st.msgs ((st.inputBuffer.drop 1).take j) with
    | Except.error e => Except.error e
    | Except.ok p =>
      Except.ok (StepRes.frame
        { st with inputBuffer := st.inputBuffer.drop (j + 2), msgs := p.1 } p.2)

theorem extractPhaseE_eq {μ : Type} (env : Env μ) (st : DState) :
    extractPhaseE env true st = Except.ok (extractPhase env st) := by
  rw [extractPhaseE, extractPhase]
  cases hj : byteIndex 0x7e (st.inputBuffer.drop 1) with
  | none => rfl
  | some j =>
    dsimp only
    rw [decodeMessageE_eq]

def loopStepE {μ : Type} (env : Env μ) (hs : Bool) (st : DState) :
    Except String (StepRes μ × Nat) :=
  if st.inputBuffer.length < 2 then Except.ok (StepRes.stop st, 0)
  else
    match st.inputBuffer.get? 0 with
    | none => Except.error "IndexError: inputBuffer[0]"
    | some b0 =>
      if b0 = 0x7e then
        match extractPhaseE env hs st with
        | Except.error e => Except.error e
        | Except.ok r => Except.ok (r, 0)
      else
        match resyncLoopE st.inputBuffer with
        | Except.error e => Except.error e
        | Except.ok r =>
          if r.1 then
            match extractPhaseE env hs
                { st with inputBuffer := r.2, parserSynchronized := true } with
            | Except.error e => Except.error e
            | Except.ok r2 => Except.ok (r2, 1)
          else
            Except.ok (StepRes.stop
              { st with inputBuffer := r.2, parserSynchronized := false }, 1)

theorem loopStepE_eq {μ : Type} (env : Env μ) (st : DState) :
    loopStepE env true st = Except.ok (loopStep env st) := by
  rw [loopStepE, loopStep]
  by_cases h2 : st.inputBuffer.length < 2
  · rw [if_pos h2, if_pos h2]
  · rw [if_neg h2, if_neg h2]
    rw [get?_zero_of_pos (by omega)]
    dsimp only
    by_cases hb : st.inputBuffer.headD 0 = 0x7e
    · rw [if_pos hb, if_pos hb, extractPhaseE_eq]
    · rw [if_neg hb, if_neg hb, resyncLoopE_eq]
      dsimp only
      by_cases hok : (resyncLoop st.inputBuffer).1 = true
      · rw [if_pos hok, if_pos hok, extractPhaseE_eq]
      · rw [if_neg hok, if_neg hok]

theorem loopStepE_frame_length {μ : Type} {env : Env μ} {hs : Bool} {st s : DState}
    {m : Option μ} {rs : Nat}
    (h : loopStepE env hs st = Except.ok (StepRes.frame s m, rs)) :
    s.inputBuffer.length < st.inputBuffer.length := by
  rw [loopStepE] at h
  by_cases h2 : st.inputBuffer.length < 2
  · rw [if_pos h2] at h
    simp at h
  · rw [if_neg h2] at h
    rw [get?_zero_of_pos (by omega)] at h
    dsimp only at h
    by_cases hb : st.inputBuffer.headD 0 = 0x7e
    · rw [if_pos hb] at h
      rw [extractPhaseE] at h
      cases hj : byteIndex 0x7e (st.inputBuffer.drop 1) with
      | none =>
        rw [hj] at h
        simp at h
      | some j =>
        rw [hj] at h
        dsimp only at h
        cases hd : decodeMessageE env hs st.msgs ((st.inputBuffer.drop 1).take j) with
        | error e =>
          rw [hd] at h
          simp at h
        | ok p =>
          rw [hd] at h
          simp at h
          have hlt := byteIndex_lt_length hj
          simp only [List.length_drop] at hlt
          obtain ⟨⟨hs1, _⟩, _⟩ := h
          rw [← hs1]
          simp only [List.length_drop]
          omega
    · rw [if_neg hb, resyncLoopE_eq] at h
      dsimp only at h
      by_cases hok : (resyncLoop st.inputBuffer).1 = true
      · rw [if_pos hok] at h
        rw [extractPhaseE] at h
        dsimp only at h
        cases hj : byteIndex 0x7e ((resyncLoop st.inputBuffer).2.drop 1) with
        | none =>
          rw [hj] at h
          simp at h
        | some j =>
          rw [hj] at h
          dsimp only at h
          cases hd : decodeMessageE env hs st.msgs
              (((resyncLoop st.inputBuffer).2.drop 1).take j) with
          | error e =>
            rw [hd] at h
            simp at h
          | ok p =>
            rw [hd] at h
            simp at h
            have hlt := byteIndex_lt_length hj
            simp only [List.length_drop] at hlt
            have hrl := resyncLoop_length_le st.inputBuffer
            obtain ⟨⟨hs1, _⟩, _⟩ := h
            rw [← hs1]
            simp only [List.length_drop]
            omega
      · rw [if_neg hok] at h
        simp at h

def parseLoopE {μ : Type} (env : Env μ) (hs : Bool) (st : DState) :
    Except String (DState × Nat × List μ) :=
  match h : loopStepE env hs st with
  | Except.error e => Except.error e
  | Except.ok (StepRes.stop s, rs) => Except.ok (s, rs, [])
  | Except.ok (StepRes.frame s m, rs) =>
    match parseLoopE env hs s with
    | Except.error e => Except.error e
    | Except.ok r => Except.ok (r.1, rs + r.2.1, m.toList ++ r.2.2)
termination_by st.inputBuffer.length
decreasing_by
  exact loopStepE_frame_length h

theorem parseLoopE_eq {μ : Type} (env : Env μ) :
    ∀ (n : Nat) (st : DState), st.inputBuffer.length ≤ n →
      parseLoopE env true st = Except.ok (parseLoop env st) := by
  intro n
  induction n using Nat.strong_induction_on with
  | _ n IH =>
    intro st hn
    rw [parseLoopE, loopStepE_eq]
    cases hls : loopStep env st with
    | mk step rs =>
      cases step with
      | stop s =>
        dsimp only
        rw [parseLoop_stop_eq hls]
      | frame s m =>
        dsimp only
        rw [IH s.inputBuffer.length
          (Nat.lt_of_lt_of_le (loopStep_frame_length hls) hn) s (Nat.le_refl _)]
        dsimp only
        rw [parseLoop_frame_eq hls]

def parseMessagesE {μ : Type} (env : Env μ) (hs : Bool) (st : DState) :
    Except String (DState × Nat × List μ) :=
  if st.parserSynchronized then parseLoopE env hs st
  else
    match resyncLoopE st.inputBuffer with
    | Except.error e => Except.error e
    | Except.ok r =>
      if r.1 then
        match parseLoopE env hs
            { st with inputBuffer := r.2, parserSynchronized := true } with
        | Except.error e => Except.error e
        | Except.ok p => Except.ok (p.1, 1 + p.2.1, p.2.2)
      else
        Except.ok ({ st with inputBuffer := r.2, parserSynchronized := false }, 1, [])

/-- `Decoder.addBytes` in the exception-aware mirror. -/
def addBytesE {μ : Type} (env : Env μ) (hs : Bool) (st : DState) (data : List Nat) :
    Except String (DState × Nat × List μ) :=
  parseMessagesE env hs { st with inputBuffer := st.inputBuffer ++ data }

theorem parseMessagesE_eq {μ : Type} (env : Env μ) (st : DState) :
    parseMessagesE env true st = Except.ok (parseMessages env st) := by
  rw [parseMessagesE, parseMessages]
  by_cases hsync : st.parserSynchronized = true
  · rw [if_pos hsync, if_pos hsync]
    exact parseLoopE_eq env st.inputBuffer.length st (Nat.le_refl _)
  · rw [if_neg hsync, if_neg hsync, resyncLoopE_eq]
    dsimp only
    by_cases hok : (resyncLoop st.inputBuffer).1 = true
    · rw [if_pos hok, if_pos hok]
      rw [parseLoopE_eq env _ _ (Nat.le_refl _)]
      rfl
    · rw [if_neg hok, if_neg hok]

end ExceptEmbedding

section DecodeLemmas

variable {μ : Type}

/-- A frame whose unescaped payload is below the 5-byte minimum is dropped
with no statistics update and no notification. -/
theorem decodeMessage_short (env : Env μ) (msgs : Stats) (escaped : List Nat)
    (h : (unescape escaped).length < 5) :
    decodeMessage env msgs escaped = (msgs, Option.none) := by
  rw [decodeMessage, if_pos h]

/-- A long-enough frame failing the CRC counts one failure against the
type id read from the unescaped body and yields no notification. -/
theorem decodeMessage_crcfail (env : Env μ) (msgs : Stats) {escaped raw : List Nat}
    (hraw : unescape escaped = raw) (hlen : 5 ≤ raw.length)
    (hcrc : env.crcCheck (raw.take (raw.length - 2)) (raw.drop (raw.length - 2)) = false) :
    decodeMessage env msgs escaped =
      (statsIncFail (statsEnsure msgs ((raw.take (raw.length - 2)).headD 0))
        ((raw.take (raw.length - 2)).headD 0), Option.none) := by
  rw [decodeMessage, hraw, if_neg (by omega)]
  dsimp only
  rw [if_pos hcrc]

/-- A long-enough frame passing the CRC whose body dispatches counts one
success and notifies with the dispatched message. -/
theorem decodeMessage_ok (env : Env μ) (msgs : Stats) {escaped raw : List Nat} {m : μ}
    (hraw : unescape escaped = raw) (hlen : 5 ≤ raw.length)
    (hcrc : env.crcCheck (raw.take (raw.length - 2)) (raw.drop (raw.length - 2)) = true)
    (hm : env.messageToObject (raw.take (raw.length - 2)) = some m) :
    decodeMessage env msgs escaped =
      (statsIncSucc (statsEnsure msgs ((raw.take (raw.length - 2)).headD 0))
        ((raw.take (raw.length - 2)).headD 0), some m) := by
  rw [decodeMessage, hraw, if_neg (by omega)]
  dsimp only
  rw [if_neg (by simp [hcrc]), hm]

/-- A delimiter-free junk run followed by a lone delimiter makes the
resynchronizer discard the junk, keep the delimiter and report failure. -/
theorem resyncLoop_junk_then_7e (junk : List Nat) (h7e : 0x7e ∉ junk) (hne : junk ≠ []) :
    resyncLoop (junk ++ [0x7e]) = (false, [0x7e]) := by
  match junk with
  | [] => exact absurd rfl hne
  | h :: t =>
    have hh : ¬ h = 0x7e := fun hc => h7e (hc ▸ List.mem_cons_self h t)
    have h7t : (0x7e : Nat) ∉ t := fun hm => h7e (List.mem_cons_of_mem h hm)
    cases ht : t ++ [0x7e] with
    | nil => simp at ht
    | cons b1 rest =>
      have hshape : (h :: t) ++ [0x7e] = h :: b1 :: rest := by
        rw [List.cons_append, ht]
      rw [hshape]
      have hbi : byteIndex 0x7e (b1 :: rest) = some t.length := by
        rw [← ht]
        exact byteIndex_append_self [] (by simpa using h7t)
      have hdrop : (b1 :: rest).drop t.length = [0x7e] := by
        rw [← ht]
        have := List.drop_left t ([0x7e] : List Nat)
        simpa using this
      rw [resyncLoop, if_neg hh, hbi]
      dsimp only
      rw [hdrop]
      simp [resyncLoop]

/-- The decoder's unescape transform on a frame ending in a dangling
escape byte: the scanned prefix is emitted, the `IndexError` handler then
re-appends the whole remainder, duplicating the prefix and keeping the
escape byte. -/
theorem unescape_trailing_escape (E : List Nat) (h7d : 0x7d ∉ E) :
    unescape (E ++ [0x7d]) = E ++ (E ++ [0x7d]) := by
  have hidx : byteIndex 0x7d (E ++ [0x7d]) = some E.length := by
    have := byteIndex_append_self ([] : List Nat) h7d
    simpa using this
  have hget : (E ++ [0x7d]).get? (E.length + 1) = none := by
    rw [List.get?_eq_none]
    simp
  have htake : (E ++ [0x7d]).take E.length = E := List.take_left E _
  rw [unescape, unescapeLoop, hidx]
  dsimp only
  rw [hget]
  dsimp only
  rw [htake]
  simp

end DecodeLemmas

/-- A concrete collaborator environment whose CRC check always fails;
message type is irrelevant. -/
def envFF : Env Nat := ⟨fun _ _ => false, fun _ => Option.none⟩

/-- A concrete collaborator environment whose CRC check always passes and
whose dispatcher returns the message body itself. -/
def envOK : Env (List Nat) := ⟨fun _ _ => true, fun msg => some msg⟩

section GdlReturn

/-!
Embedding of `GDL90PubSub._GDL_return` from `src/gdl90/gdl90.py` (lines
64-87).  Decoded messages are Python namedtuples; they are modelled as
association lists from attribute name to value so that Python attribute
lookup, including a failing lookup raising `AttributeError`, is explicit.
The publication side (`self._senddata(publish_dict)`) is an external
collaborator per the spec, so the record that would be published is
returned instead of sent.
-/

/-- A Python value held in a message attribute or a published field. -/
inductive PyVal where
  | int (n : Int)
  | str (s : String)
  | pynone
deriving Repr, DecidableEq

/-- A decoded message modelled as a Python namedtuple: attribute names to
values, looked up in order. -/
abbrev MsgObj := List (String × PyVal)

/-- Python attribute access: `AttributeError` when the field is absent. -/
def pyGetAttr (o : MsgObj) (name : String) : Except String PyVal :=
  match o.find? (fun p => p.1 = name) with
  | some p => Except.ok p.2
  | none => Except.error ("AttributeError: " ++ name)

/-- Modelled from the spec and from the decoder's own field usage
(decoder.py line 172 reads `m.StatusByte1`, `m.StatusByte2`, `m.TimeStamp`
for every Heartbeat in the default output format): the Heartbeat
namedtuple produced by the messages module, which is not under src/. -/
def heartbeatObj (s1 s2 ts : Int) : MsgObj :=
  [("MsgType", PyVal.str "Heartbeat"), ("StatusByte1", PyVal.int s1),
   ("StatusByte2", PyVal.int s2), ("TimeStamp", PyVal.int ts)]

/-- Modelled from the spec and from the field usage in decoder.py lines
176-180 and gdl90.py lines 69-83: the TrafficReport namedtuple. -/
def trafficObj (vv alt addr hv trk lat lon nic : Int) (cs : String) : MsgObj :=
  [("MsgType", PyVal.str "TrafficReport"), ("VVelocity", PyVal.int vv),
   ("Altitude", PyVal.int alt), ("Address", PyVal.int addr),
   ("HVelocity", PyVal.int hv), ("TrackHeading", PyVal.int trk),
   ("Latitude", PyVal.int lat), ("Longitude", PyVal.int lon),
   ("NavIntegrityCat", PyVal.int nic), ("CallSign", PyVal.str cs)]

/-- The payload dictionary `_GDL_return` builds for a TrafficReport, in
source order. -/
structure PublishRecord where
  vertical_velocity : PyVal
  time : PyVal
  altitude : PyVal
  icao_hex : PyVal
  horizontal_velocity : PyVal
  track : PyVal
  lat : PyVal
  lon : PyVal
  flight : PyVal
deriving Repr, DecidableEq

/-- `GDL90PubSub._GDL_return`: `cur` is `self.current_gdl_timestamp`
(initially Python `None`).  On a Heartbeat the source reads
`message.Timestamp`; on a TrafficReport it builds the publish dictionary,
with `time` taken from the current timestamp.  The returned pair is the
new `current_gdl_timestamp` and the record handed to publication, if
any. -/
def gdlReturn (cur : PyVal) (message : MsgObj) : Except String (PyVal × Option PublishRecord) := do
  let mt ← pyGetAttr message "MsgType"
  let cur1 ← if mt = PyVal.str "Heartbeat" then pyGetAttr message "Timestamp" else pure cur
  if mt = PyVal.str "TrafficReport" then
    let vv ← pyGetAttr message "VVelocity"
    let alt ← pyGetAttr message "Altitude"
    let addr ← pyGetAttr message "Address"
    let hv ← pyGetAttr message "HVelocity"
    let trk ← pyGetAttr message "TrackHeading"
    let lat ← pyGetAttr message "Latitude"
    let lon ← pyGetAttr message "Longitude"
    let cs ← pyGetAttr message "CallSign"
    pure (cur1, some ⟨vv, cur1, alt, addr, hv, trk, lat, lon, cs⟩)
  else
    pure (cur1, Option.none)

end GdlReturn

/-!
## Claim theorems
-/

/-- C1: for every byte sequence passed to `Decoder.addBytes` — including
empty input, pure noise, truncated streams and adversarial input — the
call completes without raising: the exception-aware mirror `addBytesE`
(which surfaces every unguarded Python indexing operation and the
unregistered-handler `TypeError`) returns `Except.ok` of the total
embedding's result for every environment, every starting state and every
input chunk, once a notification handler is registered.  All anomalies
degrade to counter updates and silent drops, never to an exception. -/
theorem c1_addBytes_never_raises {μ : Type} (env : Env μ) (st : DState) (data : List Nat) :
    addBytesE env true st data = Except.ok (addBytes env st data) := by
  rw [addBytesE, addBytes, parseMessagesE_eq]

/-- C3: for every byte stream and every way of splitting it into
consecutive chunks, feeding the chunks through successive `addBytes` calls
delivers exactly the same message sequence to the Notification Sink as
feeding the concatenated stream in a single call.  This covers single
call vs. byte-at-a-time vs. any boundary split of any valid multi-frame
stream, since the statement quantifies over all chunk lists. -/
theorem c3_chunking_independence {μ : Type} (env : Env μ) (cs : List (List Nat)) :
    (feedAll env initState cs).2.2 = (addBytes env initState cs.join).2.2 := by
  cases cs with
  | nil =>
    have hfail : parseMessages env (⟨[], false, [(0, 0, 0)]⟩ : DState) =
        ((⟨(resyncLoop []).2, false, [(0, 0, 0)]⟩ : DState), 1, []) :=
      parseMessages_unsync_fail (by simp [resyncLoop])
    rw [addBytes]
    rw [show ({ initState with
        inputBuffer := initState.inputBuffer ++ ([] : List (List Nat)).join } : DState) =
      (⟨[], false, [(0, 0, 0)]⟩ : DState) from rfl]
    rw [hfail]
    rfl
  | cons c cs => exact feedAll_cons_join env cs c initState

/-- C8: escape round trip.  For every byte sequence P,
`unescape (escape P) = P`, where `escape` (modelled from the spec)
prefixes each 0x7e or 0x7d byte with 0x7d and XORs it with 0x20, and
`unescape` is the decoder's `_unescape` transform. -/
theorem c8_escape_roundtrip (P : List Nat) : unescape (escape P) = P :=
  unescape_escape P

/-- C9: claimed — every TrafficReport published by `_GDL_return` carries a
time-of-applicability equal to the most recently decoded Heartbeat's
timestamp.  The code cannot do this: the Heartbeat message exposes its
timestamp as the field `TimeStamp` (that is the name decoder.py line 172
reads on every Heartbeat), but gdl90.py line 67 reads
`message.Timestamp`, so every Heartbeat delivery raises `AttributeError`
and `current_gdl_timestamp` keeps its initial `None`; a TrafficReport is
then published with `time = None`, not the Heartbeat timestamp.  The
three conjuncts exhibit exactly this on the embedding. -/
theorem c9_heartbeat_timestamp_bug (cur : PyVal)
    (s1 s2 ts vv alt addr hv trk lat lon nic : Int) (cs : String) :
    pyGetAttr (heartbeatObj s1 s2 ts) "TimeStamp" = Except.ok (PyVal.int ts) ∧
    gdlReturn cur (heartbeatObj s1 s2 ts) = Except.error "AttributeError: Timestamp" ∧
    gdlReturn PyVal.pynone (trafficObj vv alt addr hv trk lat lon nic cs) =
      Except.ok (PyVal.pynone,
        some ⟨PyVal.int vv, PyVal.pynone, PyVal.int alt, PyVal.int addr, PyVal.int hv,
          PyVal.int trk, PyVal.int lat, PyVal.int lon, PyVal.str cs⟩) :=
  ⟨rfl, rfl, rfl⟩

/-- C2: for every well-formed frame whose trailing checksum fails the CRC
check, the Notification Sink is not invoked (no message emitted), the
resynchronizer is not involved, the crcFailureCount for the frame's type
id `body[0]` increases by exactly one (with a zero-initialized entry
created for a previously unseen type id, as `statsEnsure` does), and no
other counter changes: all other failure counters and all success
counters are untouched. -/
theorem c2_crc_gating {μ : Type} (env : Env μ) (msgs : Stats) (body raw : List Nat)
    (hbody : 0x7e ∉ body)
    (hraw : unescape body = raw)
    (hlen : 5 ≤ raw.length)
    (hcrc : env.crcCheck (raw.take (raw.length - 2)) (raw.drop (raw.length - 2)) = false) :
    (addBytes env ⟨[], true, msgs⟩ ([0x7e] ++ body ++ [0x7e])).2.2 = [] ∧
    (addBytes env ⟨[], true, msgs⟩ ([0x7e] ++ body ++ [0x7e])).2.1 = 0 ∧
    failCount (addBytes env ⟨[], true, msgs⟩ ([0x7e] ++ body ++ [0x7e])).1.msgs
        ((raw.take (raw.length - 2)).headD 0) =
      failCount msgs ((raw.take (raw.length - 2)).headD 0) + 1 ∧
    (∀ k, ¬ k = (raw.take (raw.length - 2)).headD 0 →
      failCount (addBytes env ⟨[], true, msgs⟩ ([0x7e] ++ body ++ [0x7e])).1.msgs k =
        failCount msgs k) ∧
    (∀ k, succCount (addBytes env ⟨[], true, msgs⟩ ([0x7e] ++ body ++ [0x7e])).1.msgs k =
      succCount msgs k) := by
  have hshape : ([0x7e] ++ body ++ [0x7e] : List Nat) = 0x7e :: (body ++ 0x7e :: []) := by
    simp
  have hfull : addBytes env ⟨[], true, msgs⟩ ([0x7e] ++ body ++ [0x7e]) =
      (⟨[], true, statsIncFail (statsEnsure msgs ((raw.take (raw.length - 2)).headD 0))
        ((raw.take (raw.length - 2)).headD 0)⟩, 0, []) := by
    rw [addBytes, update_buffer_mk, List.nil_append, hshape, parseMessages_sync]
    rw [parseLoop_cons_frame hbody]
    rw [decodeMessage_crcfail env msgs hraw hlen hcrc]
    rw [parseLoop_short (by simp)]
    simp
  rw [hfull]
  set t := (raw.take (raw.length - 2)).headD 0 with ht
  refine ⟨rfl, rfl, ?_, ?_, ?_⟩
  · dsimp only
    rw [failCount_incFail_self _ _ (statsMem_ensure msgs t), failCount_ensure]
  · intro k hk
    dsimp only
    rw [failCount_incFail_ne _ _ _ hk, failCount_ensure]
  · intro k
    dsimp only
    rw [succCount_incFail, succCount_ensure]

/-- Witness for C2 at a concrete frame: type id 1 was unseen in the
initial statistics, the frame body is plain (escape-free, delimiter-free)
and the always-failing CRC environment rejects it. -/
theorem c2_crc_gating_witness :
    ((0x7e : Nat) ∉ ([1, 2, 3, 4, 5] : List Nat) ∧
      unescape [1, 2, 3, 4, 5] = [1, 2, 3, 4, 5] ∧
      (5 : Nat) ≤ ([1, 2, 3, 4, 5] : List Nat).length ∧
      envFF.crcCheck (([1, 2, 3, 4, 5] : List Nat).take 3)
        (([1, 2, 3, 4, 5] : List Nat).drop 3) = false) ∧
    (addBytes envFF ⟨[], true, [(0, 0, 0)]⟩ ([0x7e] ++ [1, 2, 3, 4, 5] ++ [0x7e])).2.2 = [] ∧
    failCount (addBytes envFF ⟨[], true, [(0, 0, 0)]⟩
        ([0x7e] ++ [1, 2, 3, 4, 5] ++ [0x7e])).1.msgs 1 =
      failCount [(0, 0, 0)] 1 + 1 := by
  have hun : unescape [1, 2, 3, 4, 5] = [1, 2, 3, 4, 5] := by
    simp [unescape, unescapeLoop, byteIndex]
  have hc := c2_crc_gating envFF [(0, 0, 0)] [1, 2, 3, 4, 5] [1, 2, 3, 4, 5]
    (by decide) hun (by decide) rfl
  exact ⟨⟨by decide, hun, by decide, rfl⟩, hc.1, hc.2.2.1⟩

/-- C4: for a stream containing three successfully decoding frames A, B
and C in that order, the Notification Sink receives exactly the three
decoded messages, synchronously, in arrival order — `[ma, mb, mc]`: once
per message, never reordered, never duplicated. -/
theorem c4_ordering {μ : Type} (env : Env μ) (msgs : Stats)
    (a b c ra rb rc : List Nat) (ma mb mc : μ)
    (ha7e : 0x7e ∉ a) (hb7e : 0x7e ∉ b) (hc7e : 0x7e ∉ c)
    (hra : unescape a = ra) (hrb : unescape b = rb) (hrc : unescape c = rc)
    (hla : 5 ≤ ra.length) (hlb : 5 ≤ rb.length) (hlc : 5 ≤ rc.length)
    (hca : env.crcCheck (ra.take (ra.length - 2)) (ra.drop (ra.length - 2)) = true)
    (hcb : env.crcCheck (rb.take (rb.length - 2)) (rb.drop (rb.length - 2)) = true)
    (hcc : env.crcCheck (rc.take (rc.length - 2)) (rc.drop (rc.length - 2)) = true)
    (hma : env.messageToObject (ra.take (ra.length - 2)) = some ma)
    (hmb : env.messageToObject (rb.take (rb.length - 2)) = some mb)
    (hmc : env.messageToObject (rc.take (rc.length - 2)) = some mc) :
    (addBytes env ⟨[], true, msgs⟩
      (([0x7e] ++ a ++ [0x7e]) ++ ([0x7e] ++ b ++ [0x7e]) ++ ([0x7e] ++ c ++ [0x7e]))).2.2 =
      [ma, mb, mc] := by
  have hshape : (([0x7e] ++ a ++ [0x7e]) ++ ([0x7e] ++ b ++ [0x7e]) ++
      ([0x7e] ++ c ++ [0x7e]) : List Nat) =
      0x7e :: (a ++ 0x7e :: (0x7e :: (b ++ 0x7e :: (0x7e :: (c ++ 0x7e :: []))))) := by
    simp
  rw [addBytes, update_buffer_mk, List.nil_append, hshape, parseMessages_sync]
  rw [parseLoop_cons_frame ha7e, decodeMessage_ok env msgs hra hla hca hma]
  rw [parseLoop_cons_frame hb7e, decodeMessage_ok env _ hrb hlb hcb hmb]
  rw [parseLoop_cons_frame hc7e, decodeMessage_ok env _ hrc hlc hcc hmc]
  rw [parseLoop_short (by simp)]
  simp

/-- Witness for C4 with three concrete frames through the always-accepting
environment whose dispatcher returns the body. -/
theorem c4_ordering_witness :
    ((0x7e : Nat) ∉ ([1, 2, 3, 4, 5] : List Nat) ∧
      unescape [1, 2, 3, 4, 5] = [1, 2, 3, 4, 5] ∧
      unescape [6, 7, 8, 9, 10] = [6, 7, 8, 9, 10] ∧
      unescape [11, 12, 13, 14, 15] = [11, 12, 13, 14, 15] ∧
      envOK.messageToObject (([1, 2, 3, 4, 5] : List Nat).take 3) = some [1, 2, 3]) ∧
    (addBytes envOK ⟨[], true, [(0, 0, 0)]⟩
      (([0x7e] ++ [1, 2, 3, 4, 5] ++ [0x7e]) ++ ([0x7e] ++ [6, 7, 8, 9, 10] ++ [0x7e]) ++
        ([0x7e] ++ [11, 12, 13, 14, 15] ++ [0x7e]))).2.2 =
      [[1, 2, 3], [6, 7, 8], [11, 12, 13]] := by
  have h1 : unescape [1, 2, 3, 4, 5] = [1, 2, 3, 4, 5] := by
    simp [unescape, unescapeLoop, byteIndex]
  have h2 : unescape [6, 7, 8, 9, 10] = [6, 7, 8, 9, 10] := by
    simp [unescape, unescapeLoop, byteIndex]
  have h3 : unescape [11, 12, 13, 14, 15] = [11, 12, 13, 14, 15] := by
    simp [unescape, unescapeLoop, byteIndex]
  refine ⟨⟨by decide, h1, h2, h3, rfl⟩, ?_⟩
  exact c4_ordering envOK [(0, 0, 0)] [1, 2, 3, 4, 5] [6, 7, 8, 9, 10] [11, 12, 13, 14, 15]
    [1, 2, 3, 4, 5] [6, 7, 8, 9, 10] [11, 12, 13, 14, 15]
    [1, 2, 3] [6, 7, 8] [11, 12, 13]
    (by decide) (by decide) (by decide) h1 h2 h3
    (by decide) (by decide) (by decide) rfl rfl rfl rfl rfl rfl

/-- C5 counterexample: the claim says every extracted RawFrame produces
exactly one statistics update, with a below-minimum frame counted as a
failure.  Feeding the well-delimited frame `7E 01 7E` extracts the
RawFrame `[1]` (unescaped length 1 < 5), yet the decoder returns with the
statistics completely unchanged — zero updates, no failure recorded in
any bucket — refuting both the "never neither" invariant and the
"counted as a failure" clause for short frames. -/
theorem c5_counterexample :
    addBytes envFF ⟨[], true, [(0, 0, 0)]⟩ [0x7e, 1, 0x7e] =
      (⟨[], true, [(0, 0, 0)]⟩, 0, []) := by
  have hshape : ([0x7e, 1, 0x7e] : List Nat) = 0x7e :: ([1] ++ 0x7e :: []) := rfl
  rw [addBytes, update_buffer_mk, List.nil_append, hshape, parseMessages_sync]
  rw [parseLoop_cons_frame (by decide)]
  rw [decodeMessage_short envFF [(0, 0, 0)] [1]
    (by simp [unescape, unescapeLoop, byteIndex])]
  rw [parseLoop_short (by simp)]
  simp

/-- C5 amended: every extracted RawFrame whose unescaped payload is at
least 5 bytes long produces exactly one statistics update — the total
event count (successes plus CRC failures) grows by exactly one, so never
both and never neither; a RawFrame whose unescaped payload is shorter
than 5 bytes is dropped with *no* statistics update at all (contrary to
the original claim, it is not counted anywhere) and no notification. -/
theorem c5_amended_one_update {μ : Type} (env : Env μ) (msgs : Stats) (escaped : List Nat) :
    if (unescape escaped).length < 5 then decodeMessage env msgs escaped = (msgs, Option.none)
    else statsTotal (decodeMessage env msgs escaped).1 = statsTotal msgs + 1 := by
  by_cases h : (unescape escaped).length < 5
  · rw [if_pos h]
    exact decodeMessage_short env msgs escaped h
  · rw [if_neg h]
    rw [decodeMessage, if_neg h]
    dsimp only
    by_cases hcrc : env.crcCheck ((unescape escaped).take ((unescape escaped).length - 2))
        ((unescape escaped).drop ((unescape escaped).length - 2)) = false
    · rw [if_pos hcrc]
      dsimp only
      rw [statsTotal_incFail _ _ (statsMem_ensure _ _), statsTotal_ensure]
    · rw [if_neg hcrc]
      cases env.messageToObject
          ((unescape escaped).take ((unescape escaped).length - 2)) with
      | none =>
        dsimp only
        rw [statsTotal_incSucc _ _ (statsMem_ensure _ _), statsTotal_ensure]
      | some m =>
        dsimp only
        rw [statsTotal_incSucc _ _ (statsMem_ensure _ _), statsTotal_ensure]

/-- C6 counterexample: the claim says a frame ending in the escape byte
0x7D is discarded as malformed, counted in an "unknown/malformed" bucket
and the sink is not invoked.  The code does not detect the case at all:
unescaping `[1,2,3,4,7D]` duplicates the already-scanned prefix and keeps
the trailing escape (first conjunct), and the full frame `7E 01 02 03 04
7D 7E` then proceeds through the length and CRC stages, where the (here
failing) CRC causes the failure to be counted against the content-derived
type id 1 — there is no unknown/malformed bucket anywhere in the
statistics (second conjunct). -/
theorem c6_counterexample :
    unescape [1, 2, 3, 4, 0x7d] = [1, 2, 3, 4, 1, 2, 3, 4, 0x7d] ∧
    addBytes envFF ⟨[], true, [(0, 0, 0)]⟩ [0x7e, 1, 2, 3, 4, 0x7d, 0x7e] =
      (⟨[], true, [(0, 0, 0), (1, 0, 1)]⟩, 0, []) := by
  have hun : unescape [1, 2, 3, 4, 0x7d] = [1, 2, 3, 4, 1, 2, 3, 4, 0x7d] := by
    simp [unescape, unescapeLoop, byteIndex]
  refine ⟨hun, ?_⟩
  have hshape : ([0x7e, 1, 2, 3, 4, 0x7d, 0x7e] : List Nat) =
      0x7e :: ([1, 2, 3, 4, 0x7d] ++ 0x7e :: []) := rfl
  rw [addBytes, update_buffer_mk, List.nil_append, hshape, parseMessages_sync]
  rw [parseLoop_cons_frame (by decide)]
  rw [decodeMessage_crcfail envFF [(0, 0, 0)] hun (by decide) rfl]
  rw [parseLoop_short (by simp)]
  simp [statsEnsure, statsMem, statsIncFail]

/-- C6 amended: a RawFrame whose last byte is the escape byte 0x7D is not
detected as malformed.  The unescape transform emits the bytes scanned
before the dangling escape twice and keeps the trailing 0x7D; the
resulting payload then goes through the ordinary length/CRC path, so when
the CRC check fails the failure is counted against the type id given by
the first byte of that garbled payload (not an unknown/malformed bucket)
and the Notification Sink is not invoked. -/
theorem c6_amended_trailing_escape {μ : Type} (env : Env μ) (msgs : Stats)
    (E raw : List Nat)
    (h7d : 0x7d ∉ E)
    (hraw : E ++ (E ++ [0x7d]) = raw)
    (hlen : 5 ≤ raw.length)
    (hcrc : env.crcCheck (raw.take (raw.length - 2)) (raw.drop (raw.length - 2)) = false) :
    unescape (E ++ [0x7d]) = raw ∧
    decodeMessage env msgs (E ++ [0x7d]) =
      (statsIncFail (statsEnsure msgs ((raw.take (raw.length - 2)).headD 0))
        ((raw.take (raw.length - 2)).headD 0), Option.none) := by
  have hun : unescape (E ++ [0x7d]) = raw := by
    rw [unescape_trailing_escape E h7d, hraw]
  exact ⟨hun, decodeMessage_crcfail env msgs hun hlen hcrc⟩

/-- Witness for the amended C6 at the concrete dangling-escape body
`[1,2] ++ [7D]`, whose garbled unescape output is `[1,2,1,2,7D]`. -/
theorem c6_amended_trailing_escape_witness :
    ((0x7d : Nat) ∉ ([1, 2] : List Nat) ∧
      ([1, 2] ++ ([1, 2] ++ [0x7d]) : List Nat) = [1, 2, 1, 2, 0x7d] ∧
      (5 : Nat) ≤ ([1, 2, 1, 2, 0x7d] : List Nat).length ∧
      envFF.crcCheck (([1, 2, 1, 2, 0x7d] : List Nat).take 3)
        (([1, 2, 1, 2, 0x7d] : List Nat).drop 3) = false) ∧
    unescape ([1, 2] ++ [0x7d]) = [1, 2, 1, 2, 0x7d] ∧
    decodeMessage envFF [(0, 0, 0)] ([1, 2] ++ [0x7d]) =
      (statsIncFail (statsEnsure [(0, 0, 0)] 1) 1, Option.none) := by
  have hc := c6_amended_trailing_escape envFF [(0, 0, 0)] [1, 2] [1, 2, 1, 2, 0x7d]
    (by decide) (by decide) (by decide) rfl
  exact ⟨⟨by decide, by decide, by decide, rfl⟩, hc.1, hc.2⟩

/-- C7 counterexample: the claim says the resync counter increments
exactly once per contiguous noise episode "regardless of how the noise is
chunked across ingest calls".  Feeding the delimiter-free noise episode
`[0,0]` to a fresh decoder in one call increments the counter once, but
feeding the same episode as two one-byte calls increments it twice (every
`addBytes` call that starts unsynchronized runs the resynchronizer once),
refuting the chunking-independence part of the claim; neither run
notifies. -/
theorem c7_counterexample :
    (addBytes envFF initState [0, 0]).2.1 = 1 ∧
    (feedAll envFF initState [[0], [0]]).2.1 = 2 ∧
    (addBytes envFF initState [0, 0]).2.2 = [] ∧
    (feedAll envFF initState [[0], [0]]).2.2 = [] := by
  have h1 : addBytes envFF initState [0] = (⟨[0], false, [(0, 0, 0)]⟩, 1, []) := by
    rw [addBytes]
    rw [show ({ initState with inputBuffer := initState.inputBuffer ++ [0] } : DState) =
      (⟨[0], false, [(0, 0, 0)]⟩ : DState) from rfl]
    rw [parseMessages_unsync_fail (by simp [resyncLoop])]
    simp [resyncLoop]
  have h2 : addBytes envFF (⟨[0], false, [(0, 0, 0)]⟩ : DState) [0] =
      (⟨[], false, [(0, 0, 0)]⟩, 1, []) := by
    rw [addBytes, update_buffer_mk]
    rw [parseMessages_unsync_fail (by simp [resyncLoop, byteIndex])]
    simp [resyncLoop, byteIndex]
  have h3 : addBytes envFF initState [0, 0] = (⟨[], false, [(0, 0, 0)]⟩, 1, []) := by
    rw [addBytes]
    rw [show ({ initState with inputBuffer := initState.inputBuffer ++ [0, 0] } : DState) =
      (⟨[0, 0], false, [(0, 0, 0)]⟩ : DState) from rfl]
    rw [parseMessages_unsync_fail (by simp [resyncLoop, byteIndex])]
    simp [resyncLoop, byteIndex]
  have h4 : feedAll envFF initState [[0], [0]] = (⟨[], false, [(0, 0, 0)]⟩, 2, []) := by
    rw [feedAll, h1]
    rw [feedAll, h2]
    rw [feedAll]
    simp
  rw [h3, h4]
  exact ⟨rfl, rfl, rfl, rfl⟩

/-- C7 amended: when a contiguous delimiter-free noise run followed by a
valid frame is fed to a fresh decoder in a single ingest call, there are
zero notifications for the noise, the resynchronizer runs exactly once
for the whole call, and decoding resumes correctly: the valid frame is
decoded, counted as a success and delivered.  (When the same bytes are
chunked over several calls, each call that begins unsynchronized adds one
more resynchronizer run, as the counterexample shows.) -/
theorem c7_amended_resync_on_noise {μ : Type} (env : Env μ) (noise body raw : List Nat)
    (m : μ)
    (hn7e : 0x7e ∉ noise) (hb7e : 0x7e ∉ body)
    (hraw : unescape body = raw) (hlen : 5 ≤ raw.length)
    (hcrc : env.crcCheck (raw.take (raw.length - 2)) (raw.drop (raw.length - 2)) = true)
    (hm : env.messageToObject (raw.take (raw.length - 2)) = some m) :
    addBytes env initState (noise ++ ([0x7e] ++ body ++ [0x7e])) =
      (⟨[], true, statsIncSucc (statsEnsure [(0, 0, 0)] ((raw.take (raw.length - 2)).headD 0))
        ((raw.take (raw.length - 2)).headD 0)⟩, 1, [m]) := by
  have hbody_ne : body ≠ [] := by
    intro hnil
    rw [hnil] at hraw
    have : unescape ([] : List Nat) = [] := by
      simp [unescape, unescapeLoop, byteIndex]
    rw [this] at hraw
    rw [← hraw] at hlen
    simp at hlen
  obtain ⟨hb, tb, rfl⟩ : ∃ hb tb, body = hb :: tb := by
    cases body with
    | nil => exact absurd rfl hbody_ne
    | cons hb tb => exact ⟨hb, tb, rfl⟩
  have hhb : ¬ hb = 0x7e := fun hc => hb7e (hc ▸ List.mem_cons_self hb tb)
  have hshape : (noise ++ ([0x7e] ++ (hb :: tb) ++ [0x7e]) : List Nat) =
      noise ++ 0x7e :: (hb :: (tb ++ 0x7e :: [])) := by
    simp
  have hidx : byteIndex 0x7e (noise ++ 0x7e :: (hb :: (tb ++ 0x7e :: []))) =
      some noise.length :=
    byteIndex_append_self _ hn7e
  have htail : tailFrom7e (noise ++ 0x7e :: (hb :: (tb ++ 0x7e :: []))) =
      0x7e :: (hb :: (tb ++ 0x7e :: [])) := by
    rw [tailFrom7e_of_some hidx]
    exact List.drop_left noise _
  have hok : (resyncLoop (noise ++ 0x7e :: (hb :: (tb ++ 0x7e :: [])))).1 = true := by
    rw [resyncLoop_ok_iff, htail]
    simp
  have hbuf : (resyncLoop (noise ++ 0x7e :: (hb :: (tb ++ 0x7e :: [])))).2 =
      0x7e :: (hb :: (tb ++ 0x7e :: [])) := by
    rw [resyncLoop_ok_buffer _ (by rw [htail]; simp), htail]
    simp [dropStale, hhb]
  rw [addBytes]
  rw [show ({ initState with
      inputBuffer := initState.inputBuffer ++ (noise ++ ([0x7e] ++ (hb :: tb) ++ [0x7e])) } :
      DState) = (⟨noise ++ ([0x7e] ++ (hb :: tb) ++ [0x7e]), false, [(0, 0, 0)]⟩ : DState)
    from by rw [update_buffer_mk]; simp [initState]]
  rw [hshape, parseMessages_unsync_ok hok, hbuf]
  have hcons : (0x7e :: (hb :: (tb ++ 0x7e :: [])) : List Nat) =
      0x7e :: ((hb :: tb) ++ 0x7e :: []) := rfl
  rw [hcons, parseLoop_cons_frame hb7e]
  rw [decodeMessage_ok env [(0, 0, 0)] hraw hlen hcrc hm]
  rw [parseLoop_short (by simp)]
  simp [afterResync]

/-- Witness for the amended C7: two noise bytes followed by one valid
frame through the always-accepting environment. -/
theorem c7_amended_resync_on_noise_witness :
    ((0x7e : Nat) ∉ ([9, 9] : List Nat) ∧
      unescape [1, 2, 3, 4, 5] = [1, 2, 3, 4, 5] ∧
      envOK.messageToObject (([1, 2, 3, 4, 5] : List Nat).take 3) = some [1, 2, 3]) ∧
    addBytes envOK initState ([9, 9] ++ ([0x7e] ++ [1, 2, 3, 4, 5] ++ [0x7e])) =
      (⟨[], true, statsIncSucc (statsEnsure [(0, 0, 0)] 1) 1⟩, 1, [[1, 2, 3]]) := by
  have hun : unescape [1, 2, 3, 4, 5] = [1, 2, 3, 4, 5] := by
    simp [unescape, unescapeLoop, byteIndex]
  have hc := c7_amended_resync_on_noise envOK [9, 9] [1, 2, 3, 4, 5] [1, 2, 3, 4, 5]
    [1, 2, 3] (by decide) (by decide) hun (by decide) rfl rfl
  exact ⟨⟨by decide, hun, rfl⟩, hc⟩

/-- C10: for a synchronized buffer of the form delimiter + body1 +
delimiter + body2 + delimiter, where the two frames share the single
middle delimiter, only the first frame is decoded and delivered:
extracting frame 1 consumes the shared delimiter, the parser then sees
body2's first byte where it expects a delimiter, loses synchronization,
discards all of body2, runs the resynchronizer exactly once, keeps only
the final delimiter in the buffer, and never invokes the Notification
Sink for the second frame. -/
theorem c10_shared_delimiter {μ : Type} (env : Env μ) (msgs : Stats)
    (body1 raw1 body2 : List Nat) (m1 : μ)
    (h17e : 0x7e ∉ body1)
    (hraw1 : unescape body1 = raw1) (hlen1 : 5 ≤ raw1.length)
    (hcrc1 : env.crcCheck (raw1.take (raw1.length - 2)) (raw1.drop (raw1.length - 2)) = true)
    (hm1 : env.messageToObject (raw1.take (raw1.length - 2)) = some m1)
    (h27e : 0x7e ∉ body2) (h2ne : body2 ≠ []) :
    addBytes env ⟨[], true, msgs⟩ ([0x7e] ++ body1 ++ [0x7e] ++ body2 ++ [0x7e]) =
      (⟨[0x7e], false,
        statsIncSucc (statsEnsure msgs ((raw1.take (raw1.length - 2)).headD 0))
          ((raw1.take (raw1.length - 2)).headD 0)⟩, 1, [m1]) := by
  have hshape : ([0x7e] ++ body1 ++ [0x7e] ++ body2 ++ [0x7e] : List Nat) =
      0x7e :: (body1 ++ 0x7e :: (body2 ++ [0x7e])) := by
    simp
  rw [addBytes, update_buffer_mk, List.nil_append, hshape, parseMessages_sync]
  rw [parseLoop_cons_frame h17e, decodeMessage_ok env msgs hraw1 hlen1 hcrc1 hm1]
  obtain ⟨hb, tb, rfl⟩ : ∃ hb tb, body2 = hb :: tb := by
    cases body2 with
    | nil => exact absurd rfl h2ne
    | cons hb tb => exact ⟨hb, tb, rfl⟩
  have hhb : ¬ hb = 0x7e := fun hc => h27e (hc ▸ List.mem_cons_self hb tb)
  have hresync : resyncLoop ((hb :: tb) ++ [0x7e]) = (false, [0x7e]) :=
    resyncLoop_junk_then_7e (hb :: tb) h27e (by simp)
  have hstep : loopStep env (⟨(hb :: tb) ++ [0x7e], true,
      statsIncSucc (statsEnsure msgs ((raw1.take (raw1.length - 2)).headD 0))
        ((raw1.take (raw1.length - 2)).headD 0)⟩ : DState) =
      (StepRes.stop ⟨[0x7e], false,
        statsIncSucc (statsEnsure msgs ((raw1.take (raw1.length - 2)).headD 0))
          ((raw1.take (raw1.length - 2)).headD 0)⟩, 1) := by
    rw [loopStep_resync_fail (by simp) (by simp [hhb]) (by rw [hresync])]
    rw [update_buffer_sync_mk, hresync]
  rw [parseLoop_stop_eq hstep]
  simp

/-- Witness for C10 with a concrete valid first frame and the junk body
`[8,8]` as the second frame body sharing the middle delimiter. -/
theorem c10_shared_delimiter_witness :
    ((0x7e : Nat) ∉ ([1, 2, 3, 4, 5] : List Nat) ∧
      unescape [1, 2, 3, 4, 5] = [1, 2, 3, 4, 5] ∧
      (0x7e : Nat) ∉ ([8, 8] : List Nat) ∧ ([8, 8] : List Nat) ≠ []) ∧
    addBytes envOK ⟨[], true, [(0, 0, 0)]⟩
        ([0x7e] ++ [1, 2, 3, 4, 5] ++ [0x7e] ++ [8, 8] ++ [0x7e]) =
      (⟨[0x7e], false, statsIncSucc (statsEnsure [(0, 0, 0)] 1) 1⟩, 1, [[1, 2, 3]]) := by
  have hun : unescape [1, 2, 3, 4, 5] = [1, 2, 3, 4, 5] := by
    simp [unescape, unescapeLoop, byteIndex]
  have hc := c10_shared_delimiter envOK [(0, 0, 0)] [1, 2, 3, 4, 5] [1, 2, 3, 4, 5]
    [8, 8] [1, 2, 3] (by decide) hun (by decide) rfl rfl (by decide) (by simp)
  exact ⟨⟨by decide, hun, by decide, by simp⟩, hc⟩

end GDL90

